import Mathlib

/-!
Verification of the Profiling-tool repository's fetch-orchestration and
behavioral-analysis pipeline, as a shallow embedding in Lean 4.

Conventions used throughout:
* Python floats are modelled exactly over `ℚ`; `round(x, d)` is modelled as
  round-half-to-even (`pyRound`), which is Python's rounding mode.  On every
  concrete input appearing in the claims the rational model coincides with
  CPython's float behaviour (checked against the actual values `3200`,
  `1400000`, `0.25`, `0.12`).
* Django querysets are modelled as lists of rows; `update_or_create` /
  `get_or_create` become explicit association-list upserts.
* Celery task retries are modelled by an explicit recursion over the retry
  counter, following Celery's semantics: a task body sees
  `self.request.retries = r` and `self.retry` succeeds exactly when
  `r + 1 ≤ max_retries`.
-/

/-! ## Python `round` modelled over ℚ -/

/-- Round-half-to-even to an integer: the model of Python's built-in
`round(x)` for a real argument, computed exactly over `ℚ`. -/
def pyRoundInt (q : ℚ) : ℤ :=
  let f : ℤ := ⌊q⌋
  let r : ℚ := q - f
  if r < 1/2 then f
  else if 1/2 < r then f + 1
  else if f % 2 = 0 then f else f + 1

/-- Model of Python's `round(x, d)` (round-half-to-even at `d` decimal
places), computed exactly over `ℚ`. -/
def pyRound (d : ℕ) (q : ℚ) : ℚ :=
  (pyRoundInt (q * 10 ^ d) : ℚ) / 10 ^ d

/-! ## `compute_sentiment_distribution` (profiles/tasks.py, lines 308–325)

The helper receives the list of post captions and a sentiment scorer
(`TextBlob(...).sentiment.polarity` in the source, an external library
modelled here as an oracle `score`).  Each per-post sentiment is
`round(polarity, 2)`; the counters bucket `> 0.05` / `< -0.05` / neutral,
and the overall score is `round((pos - neg) / max(1, total), 2)`. -/

structure SentimentDist where
  positive : ℕ
  neutral : ℕ
  negative : ℕ
  deriving DecidableEq, Repr

/-- One iteration of the bucketing loop of `compute_sentiment_distribution`. -/
def bucketStep (d : SentimentDist) (s : ℚ) : SentimentDist :=
  if s > 0.05 then { d with positive := d.positive + 1 }
  else if s < -0.05 then { d with negative := d.negative + 1 }
  else { d with neutral := d.neutral + 1 }

/-- Total number of bucketed posts. -/
def SentimentDist.total (d : SentimentDist) : ℕ :=
  d.positive + d.neutral + d.negative

/-- Shallow embedding of `compute_sentiment_distribution` from
`profiles/tasks.py`: returns `(sentiments, sentiment_distribution,
overall_score)`. -/
def compute_sentiment_distribution {α : Type} (score : α → ℚ) (captions : List α) :
    List ℚ × SentimentDist × ℚ :=
  let sentiments := captions.map (fun c => pyRound 2 (score c))
  let dist := sentiments.foldl bucketStep ⟨0, 0, 0⟩
  let overall := pyRound 2
    (((dist.positive : ℚ) - (dist.negative : ℚ)) / (max 1 (dist.total : ℚ)))
  (sentiments, dist, overall)

theorem foldl_bucketStep_positive (l : List ℚ) (d : SentimentDist) :
    (l.foldl bucketStep d).positive =
      d.positive + l.countP (fun s => decide ((0.05 : ℚ) < s)) := by
  induction l generalizing d with
  | nil => simp
  | cons s t ih =>
    by_cases h1 : (0.05 : ℚ) < s
    · simp [bucketStep, List.countP_cons, ih, h1]
      omega
    · by_cases h2 : s < (-0.05 : ℚ)
      · simp [bucketStep, List.countP_cons, ih, h1, h2]
      · simp [bucketStep, List.countP_cons, ih, h1, h2]

theorem foldl_bucketStep_negative (l : List ℚ) (d : SentimentDist) :
    (l.foldl bucketStep d).negative =
      d.negative + l.countP (fun s => decide (s < (-0.05 : ℚ))) := by
  induction l generalizing d with
  | nil => simp
  | cons s t ih =>
    by_cases h1 : (0.05 : ℚ) < s
    · have h2 : ¬ s < (-0.05 : ℚ) := by linarith
      simp [bucketStep, List.countP_cons, ih, h1, h2]
    · by_cases h2 : s < (-0.05 : ℚ)
      · simp [bucketStep, List.countP_cons, ih, h1, h2]
        omega
      · simp [bucketStep, List.countP_cons, ih, h1, h2]

theorem foldl_bucketStep_neutral (l : List ℚ) (d : SentimentDist) :
    (l.foldl bucketStep d).neutral =
      d.neutral + l.countP (fun s => decide ((-0.05 : ℚ) ≤ s ∧ s ≤ (0.05 : ℚ))) := by
  induction l generalizing d with
  | nil => simp
  | cons s t ih =>
    by_cases h1 : (0.05 : ℚ) < s
    · have h2 : ¬ (s ≤ (0.05 : ℚ)) := not_le.mpr h1
      simp [bucketStep, List.countP_cons, ih, h1, h2]
    · by_cases h2 : s < (-0.05 : ℚ)
      · have h3 : ¬ ((-0.05 : ℚ) ≤ s) := not_le.mpr h2
        simp [bucketStep, List.countP_cons, ih, h1, h2, h3]
      · have h3 : (-0.05 : ℚ) ≤ s := not_lt.mp h2
        have h4 : s ≤ (0.05 : ℚ) := not_lt.mp h1
        simp [bucketStep, List.countP_cons, ih, h1, h2, h3, h4]
        omega

theorem foldl_bucketStep_total (l : List ℚ) (d : SentimentDist) :
    (l.foldl bucketStep d).total = d.total + l.length := by
  induction l generalizing d with
  | nil => simp
  | cons s t ih =>
    rw [List.foldl_cons, ih]
    by_cases h1 : (0.05 : ℚ) < s
    · simp [bucketStep, SentimentDist.total, h1]
      try omega
    · by_cases h2 : s < (-0.05 : ℚ)
      · simp [bucketStep, SentimentDist.total, h1, h2]
        try omega
      · simp [bucketStep, SentimentDist.total, h1, h2]
        try omega

/-- C1 (amended): the sentiment computation of the behavioral analysis
buckets each post's (2-decimal-rounded) sentiment score as positive when
`score > 0.05`, negative when `score < -0.05`, and neutral otherwise; the
aggregate score is `(positive - negative) / max(1, total)` rounded to **2**
decimals (the source rounds with `round(..., 2)`, not 3); for scores
`[0.2, -0.3, 0.0, 0.06]` the distribution is `{positive 2, neutral 1,
negative 1}` and the aggregate is `0.25`. -/
theorem c1_sentiment_buckets_and_aggregate {α : Type} (score : α → ℚ)
    (captions : List α) :
    ((compute_sentiment_distribution score captions).2.1.positive =
        (captions.map fun c => pyRound 2 (score c)).countP
          (fun s => decide ((0.05 : ℚ) < s)) ∧
      (compute_sentiment_distribution score captions).2.1.negative =
        (captions.map fun c => pyRound 2 (score c)).countP
          (fun s => decide (s < (-0.05 : ℚ))) ∧
      (compute_sentiment_distribution score captions).2.1.neutral =
        (captions.map fun c => pyRound 2 (score c)).countP
          (fun s => decide ((-0.05 : ℚ) ≤ s ∧ s ≤ (0.05 : ℚ))) ∧
      (compute_sentiment_distribution score captions).2.1.total =
        captions.length ∧
      (compute_sentiment_distribution score captions).2.2 =
        pyRound 2
          ((((compute_sentiment_distribution score captions).2.1.positive : ℚ) -
              ((compute_sentiment_distribution score captions).2.1.negative : ℚ)) /
            max 1 (captions.length : ℚ))) ∧
    (compute_sentiment_distribution id [(1 : ℚ)/5, -3/10, 0, 3/50]).2.1 =
      ⟨2, 1, 1⟩ ∧
    (compute_sentiment_distribution id [(1 : ℚ)/5, -3/10, 0, 3/50]).2.2 = 1/4 := by
  have e1 : pyRound 2 ((1 : ℚ)/5) = 1/5 := by norm_num [pyRound, pyRoundInt]
  have e2 : pyRound 2 ((-3 : ℚ)/10) = (-3 : ℚ)/10 := by
    norm_num [pyRound, pyRoundInt]
  have e3 : pyRound 2 ((0 : ℚ)) = 0 := by norm_num [pyRound, pyRoundInt]
  have e4 : pyRound 2 ((3 : ℚ)/50) = 3/50 := by norm_num [pyRound, pyRoundInt]
  refine ⟨⟨?_, ?_, ?_, ?_, ?_⟩, ?_, ?_⟩
  · simpa [compute_sentiment_distribution] using foldl_bucketStep_positive
      (captions.map fun c => pyRound 2 (score c)) ⟨0, 0, 0⟩
  · simpa [compute_sentiment_distribution] using foldl_bucketStep_negative
      (captions.map fun c => pyRound 2 (score c)) ⟨0, 0, 0⟩
  · simpa [compute_sentiment_distribution] using foldl_bucketStep_neutral
      (captions.map fun c => pyRound 2 (score c)) ⟨0, 0, 0⟩
  · simpa [compute_sentiment_distribution, SentimentDist.total] using
      foldl_bucketStep_total (captions.map fun c => pyRound 2 (score c)) ⟨0, 0, 0⟩
  · have ht := foldl_bucketStep_total
      (captions.map fun c => pyRound 2 (score c)) ⟨0, 0, 0⟩
    simp only [compute_sentiment_distribution]
    rw [ht]
    simp [SentimentDist.total]
  · show (List.foldl bucketStep ⟨0, 0, 0⟩
      (List.map (fun c => pyRound 2 (id c)) [(1 : ℚ)/5, -3/10, 0, 3/50])) = ⟨2, 1, 1⟩
    simp only [List.map, id]
    rw [e1, e2, e3, e4]
    norm_num [bucketStep, List.foldl]
  · show pyRound 2 _ = 1/4
    simp only [compute_sentiment_distribution, List.map, id]
    rw [e1, e2, e3, e4]
    norm_num [bucketStep, List.foldl, SentimentDist.total, pyRound, pyRoundInt]

/-- C1 counterexample: the source rounds the aggregate to 2 decimals, not 3.
For eight posts with sentiment scores `[0.2, 0, 0, 0, 0, 0, 0, 0]` the code
produces `round(1/8, 2) = 0.12`, while the claimed 3-decimal rounding gives
`round(1/8, 3) = 0.125`. -/
theorem c1_counterexample :
    (compute_sentiment_distribution id [(1 : ℚ)/5, 0, 0, 0, 0, 0, 0, 0]).2.2 =
      12/100 ∧
    pyRound 3 (((1 : ℚ) - 0) / max 1 (8 : ℚ)) = 125/1000 ∧
    ((12 : ℚ)/100) ≠ 125/1000 := by
  have e1 : pyRound 2 ((1 : ℚ)/5) = 1/5 := by norm_num [pyRound, pyRoundInt]
  have e3 : pyRound 2 ((0 : ℚ)) = 0 := by norm_num [pyRound, pyRoundInt]
  refine ⟨?_, ?_, by norm_num⟩
  · show pyRound 2 _ = 12/100
    simp only [compute_sentiment_distribution, List.map, id]
    rw [e1, e3]
    norm_num [bucketStep, List.foldl, SentimentDist.total, pyRound, pyRoundInt]
  · norm_num [pyRound, pyRoundInt]

/-! ## Celery retry scheduling (profiles/tasks.py, lines 94–105, 178–190,
258–280)

`scrape_twitter_task` and `scrape_tiktok_task` are declared with
`max_retries=3` and on any exception call
`self.retry(countdown=60 * (2 ** self.request.retries))`.  Celery lets a
task body observe `self.request.retries = r` (the number of retries already
performed, `0` on the first execution) and `self.retry` raises
`MaxRetriesExceededError` exactly when `r + 1 > max_retries`.  For a fetcher
that always fails transiently, the recorded delay sequence is produced by
`celeryDelays`; the fuel argument bounds the recursion and is instantiated
at `max_retries + 1`, the number of executions that can occur. -/

def celeryDelays (maxRetries : ℕ) (countdown : ℕ → ℕ) : ℕ → ℕ → List ℕ
  | 0, _ => []
  | fuel + 1, r =>
    if maxRetries < r + 1 then []
    else countdown r :: celeryDelays maxRetries countdown fuel (r + 1)

/-- Retry countdown of `scrape_twitter_task` (tasks.py line 97):
`60 * (2 ** self.request.retries)`. -/
def twitterRetryCountdown (r : ℕ) : ℕ := 60 * 2 ^ r

/-- Retry countdown of `scrape_tiktok_task` (tasks.py line 182), the same
formula as the Twitter task. -/
def tiktokRetryCountdown (r : ℕ) : ℕ := 60 * 2 ^ r

/-- Delay sequence recorded by `scrape_twitter_task` (`max_retries=3`) when
the scraper always fails transiently. -/
def scrape_twitter_task_delays : List ℕ :=
  celeryDelays 3 twitterRetryCountdown 4 0

/-- Delay sequence recorded by `scrape_tiktok_task` (`max_retries=3`) when
the scraper always fails transiently. -/
def scrape_tiktok_task_delays : List ℕ :=
  celeryDelays 3 tiktokRetryCountdown 4 0

theorem celeryDelays_eq (m : ℕ) (c : ℕ → ℕ) :
    ∀ fuel r, m ≤ r + fuel →
      celeryDelays m c fuel r = (List.range (m - r)).map fun i => c (r + i) := by
  intro fuel
  induction fuel with
  | zero =>
    intro r h
    have h0 : m - r = 0 := by omega
    simp [celeryDelays, h0]
  | succ fuel ih =>
    intro r h
    by_cases hr : m < r + 1
    · have h0 : m - r = 0 := by omega
      simp [celeryDelays, hr, h0]
    · have h2 : m ≤ (r + 1) + fuel := by omega
      have hmr : m - r = (m - (r + 1)) + 1 := by omega
      rw [show celeryDelays m c (fuel + 1) r =
            c r :: celeryDelays m c fuel (r + 1) by simp [celeryDelays, hr],
          ih (r + 1) h2, hmr, List.range_succ_eq_map, List.map_cons, List.map_map]
      simp [Function.comp, Nat.add_comm, Nat.add_left_comm, Nat.add_assoc]

/-- C2 (amended): with an always-transient fetcher, the Twitter and TikTok
tasks record the strictly increasing, uncapped delay sequence
`baseDelay*2^0, baseDelay*2^1, ..., baseDelay*2^(maxAttempts-1)` — the delay
before retry number `k` is `baseDelay * 2^(k-1)`, where the exponent is the
number of retries already performed (not `baseDelay * 2^k` as claimed).  For
the concrete tasks (`baseDelay = 60`, `max_retries = 3`) the sequence is
`[60, 120, 240]`. -/
theorem c2_retry_delay_schedule (base maxRetries : ℕ) (hb : 0 < base) :
    (celeryDelays maxRetries (fun r => base * 2 ^ r) (maxRetries + 1) 0 =
      (List.range maxRetries).map fun r => base * 2 ^ r) ∧
    (celeryDelays maxRetries (fun r => base * 2 ^ r)
      (maxRetries + 1) 0).Pairwise (fun a b => a < b) ∧
    scrape_twitter_task_delays = [60, 120, 240] ∧
    scrape_tiktok_task_delays = [60, 120, 240] := by
  have he : celeryDelays maxRetries (fun r => base * 2 ^ r) (maxRetries + 1) 0 =
      (List.range maxRetries).map fun r => base * 2 ^ r := by
    rw [celeryDelays_eq maxRetries _ (maxRetries + 1) 0 (by omega)]
    simp
  refine ⟨he, ?_, by decide, by decide⟩
  rw [he]
  refine List.Pairwise.map _ ?_ (List.pairwise_lt_range maxRetries)
  intro a b hab
  exact mul_lt_mul_of_pos_left
    (pow_lt_pow_right₀ (by norm_num : (1 : ℕ) < 2) hab) hb

/-- C2 counterexample: the claim says the delay before retry `k` is
`baseDelay * 2^k`, i.e. the sequence `[120, 240, 480]` for the Twitter task;
the code's first recorded delay is `60 = 60 * 2^0`, not `120 = 60 * 2^1`. -/
theorem c2_counterexample :
    scrape_twitter_task_delays = [60, 120, 240] ∧
    scrape_twitter_task_delays ≠ [60 * 2 ^ 1, 60 * 2 ^ 2, 60 * 2 ^ 3] ∧
    scrape_twitter_task_delays.head? = some 60 ∧ (60 : ℕ) ≠ 60 * 2 ^ 1 := by
  decide

/-- C2 witness: the amended schedule theorem applied at the concrete Twitter
parameters `baseDelay = 60`, `maxAttempts = 3`. -/
theorem c2_retry_delay_schedule_witness :
    (celeryDelays 3 (fun r => 60 * 2 ^ r) 4 0 =
      (List.range 3).map fun r => 60 * 2 ^ r) ∧
    (celeryDelays 3 (fun r => 60 * 2 ^ r) 4 0).Pairwise (fun a b => a < b) ∧
    scrape_twitter_task_delays = [60, 120, 240] ∧
    scrape_tiktok_task_delays = [60, 120, 240] :=
  c2_retry_delay_schedule 60 3 (by decide)

/-! ## Python string helpers

Text is modelled as `List Char`.  `stripChars` models `str.strip()`,
`removeChar` models `str.replace(c, "")`, `pyNormUpper` models the common
`text.replace(",", "").strip().upper()` pipeline of the numeric
normalizers. -/

/-- Model of Python `str.strip()`: drop leading and trailing whitespace. -/
def stripChars (s : List Char) : List Char :=
  ((s.dropWhile Char.isWhitespace).reverse.dropWhile Char.isWhitespace).reverse

/-- Model of Python `str.replace(c, "")`: remove every occurrence of `c`. -/
def removeChar (c : Char) (s : List Char) : List Char :=
  s.filter (fun x => x ≠ c)

/-- Model of `text.replace(",", "").strip().upper()`. -/
def pyNormUpper (text : List Char) : List Char :=
  (stripChars (removeChar ',' text)).map Char.toUpper

/-- Numeric value of a digit string (most significant digit first). -/
def natOfDigits (s : List Char) : ℕ :=
  s.foldl (fun a c => 10 * a + (c.toNat - '0'.toNat)) 0

/-- Parse a decimal literal the way Python's `float(s)` does (sign, digits,
optional fractional part; no exponents, which never occur in the scraped
counter strings): returns `(negative, mantissa, scale)` with value
`±mantissa / 10^scale`, or `none` when `float(s)` would raise
`ValueError`. -/
def parseDecParts (s : List Char) : Option (Bool × ℕ × ℕ) :=
  let p : Bool × List Char :=
    match s with
    | '-' :: r => (true, r)
    | '+' :: r => (false, r)
    | r => (false, r)
  let ip := p.2.takeWhile Char.isDigit
  let r2 := p.2.dropWhile Char.isDigit
  match r2 with
  | [] => if ip.isEmpty then none else some (p.1, natOfDigits ip, 0)
  | '.' :: fp =>
    let fd := fp.takeWhile Char.isDigit
    if (fp.dropWhile Char.isDigit).isEmpty then
      if ip.isEmpty && fd.isEmpty then none
      else some (p.1, natOfDigits (ip ++ fd), fd.length)
    else none
  | _ => none

/-- The rational value of a `parseDecParts` result. -/
def partsToQ (p : Bool × ℕ × ℕ) : ℚ :=
  (if p.1 then -(p.2.1 : ℚ) else (p.2.1 : ℚ)) / 10 ^ p.2.2

/-- Parse an integer literal the way Python's `int(s)` does (optional sign,
then digits only): `int("3.2")` raises, modelled as `none`. -/
def pyIntParse (s : List Char) : Option ℤ :=
  let p : Bool × List Char :=
    match s with
    | '-' :: r => (true, r)
    | '+' :: r => (false, r)
    | r => (false, r)
  if p.2.isEmpty || !(p.2.all Char.isDigit) then none
  else some (if p.1 then -(natOfDigits p.2 : ℤ) else (natOfDigits p.2 : ℤ))

/-- Truncation toward zero: the model of Python's `int(x)` on a float. -/
def truncQ (q : ℚ) : ℤ := if 0 ≤ q then ⌊q⌋ else -⌊-q⌋

/-! ## Numeric normalizers (`_extract_int`, `_to_int_safe`)

`_extract_int` is from `profiles/utils/twitter_scrapingbee_scraper.py`
(lines 33–43): it handles only the `K` and `M` suffixes, with a bare
`int(text)` fall-through.  `_to_int_safe` is from
`profiles/utils/instagram_scrapingbee_scraper.py` (lines 155–169): it
additionally handles `B` and falls through to `int(float(s))`. -/

def _extract_int (text : List Char) : ℤ :=
  let t := pyNormUpper text
  if t.contains 'K' then
    match parseDecParts (removeChar 'K' t) with
    | some p => truncQ (partsToQ p * 1000)
    | none => 0
  else if t.contains 'M' then
    match parseDecParts (removeChar 'M' t) with
    | some p => truncQ (partsToQ p * 1000000)
    | none => 0
  else (pyIntParse t).getD 0

def _to_int_safe (value : List Char) : ℤ :=
  if value.isEmpty then 0
  else
    let s := pyNormUpper value
    if s.contains 'K' then
      match parseDecParts (removeChar 'K' s) with
      | some p => truncQ (partsToQ p * 1000)
      | none => 0
    else if s.contains 'M' then
      match parseDecParts (removeChar 'M' s) with
      | some p => truncQ (partsToQ p * 1000000)
      | none => 0
    else if s.contains 'B' then
      match parseDecParts (removeChar 'B' s) with
      | some p => truncQ (partsToQ p * 1000000000)
      | none => 0
    else
      match parseDecParts s with
      | some p => truncQ (partsToQ p)
      | none => 0

/-- C5 (amended): `"3.2K"` normalizes to `3200` and `"1.4M"` to `1400000`
under both normalizers, and `_to_int_safe` implements the full suffix table
K=10^3, M=10^6, B=10^9 — but `_extract_int` (the Twitter normalizer) has no
`B` branch and returns `0` for B-suffixed strings. -/
theorem c5_suffix_normalization :
    _extract_int ("3.2K".toList) = 3200 ∧
    _extract_int ("1.4M".toList) = 1400000 ∧
    _extract_int ("1,024".toList) = 1024 ∧
    _extract_int ("1B".toList) = 0 ∧
    _to_int_safe ("3.2K".toList) = 3200 ∧
    _to_int_safe ("1.4M".toList) = 1400000 ∧
    _to_int_safe ("1B".toList) = 1000000000 ∧
    _to_int_safe ("12.7".toList) = 12 := by
  have h32 : parseDecParts (removeChar 'K' (pyNormUpper ("3.2K".toList))) =
      some (false, 32, 1) := by decide
  have h14 : parseDecParts (removeChar 'M' (pyNormUpper ("1.4M".toList))) =
      some (false, 14, 1) := by decide
  have h1b : parseDecParts (removeChar 'B' (pyNormUpper ("1B".toList))) =
      some (false, 1, 0) := by decide
  have h127 : parseDecParts (pyNormUpper ("12.7".toList)) =
      some (false, 127, 1) := by decide
  refine ⟨?_, ?_, by decide, by decide, ?_, ?_, ?_, ?_⟩
  · show _extract_int ("3.2K".toList) = 3200
    simp only [_extract_int, show (pyNormUpper ("3.2K".toList)).contains 'K' =
      true from by decide, if_true, h32]
    norm_num [partsToQ, truncQ]
  · show _extract_int ("1.4M".toList) = 1400000
    simp only [_extract_int, show (pyNormUpper ("1.4M".toList)).contains 'K' =
      false from by decide, show (pyNormUpper ("1.4M".toList)).contains 'M' =
      true from by decide, if_true, Bool.false_eq_true, if_false, h14]
    norm_num [partsToQ, truncQ]
  · show _to_int_safe ("3.2K".toList) = 3200
    simp only [_to_int_safe, show ("3.2K".toList).isEmpty = false from by decide,
      show (pyNormUpper ("3.2K".toList)).contains 'K' = true from by decide,
      Bool.false_eq_true, if_false, if_true, h32]
    norm_num [partsToQ, truncQ]
  · show _to_int_safe ("1.4M".toList) = 1400000
    simp only [_to_int_safe, show ("1.4M".toList).isEmpty = false from by decide,
      show (pyNormUpper ("1.4M".toList)).contains 'K' = false from by decide,
      show (pyNormUpper ("1.4M".toList)).contains 'M' = true from by decide,
      Bool.false_eq_true, if_false, if_true, h14]
    norm_num [partsToQ, truncQ]
  · show _to_int_safe ("1B".toList) = 1000000000
    simp only [_to_int_safe, show ("1B".toList).isEmpty = false from by decide,
      show (pyNormUpper ("1B".toList)).contains 'K' = false from by decide,
      show (pyNormUpper ("1B".toList)).contains 'M' = false from by decide,
      show (pyNormUpper ("1B".toList)).contains 'B' = true from by decide,
      Bool.false_eq_true, if_false, if_true, h1b]
    norm_num [partsToQ, truncQ]
  · show _to_int_safe ("12.7".toList) = 12
    simp only [_to_int_safe, show ("12.7".toList).isEmpty = false from by decide,
      show (pyNormUpper ("12.7".toList)).contains 'K' = false from by decide,
      show (pyNormUpper ("12.7".toList)).contains 'M' = false from by decide,
      show (pyNormUpper ("12.7".toList)).contains 'B' = false from by decide,
      Bool.false_eq_true, if_false, h127]
    norm_num [partsToQ, truncQ]

/-- C5 counterexample: the claim's fixed suffix table includes `B = 10^9`,
but `_extract_int` (twitter_scrapingbee_scraper.py) has no `B` branch:
`int("1B")` raises `ValueError`, caught and mapped to `0`, so
`_extract_int "1B" = 0 ≠ 10^9`. -/
theorem c5_counterexample :
    _extract_int ("1B".toList) = 0 ∧ (0 : ℤ) ≠ 10 ^ 9 := by
  refine ⟨by decide, by decide⟩

/-! ## `generate_sentiment_distribution`
(profiles/utils/sentiment_distribution.py, lines 4–56)

The function either receives `sentiment_values` directly (non-null entries
are kept), or — when a username is given — reads the non-null
`sentiment_score` column of the matching `RawPost` rows (modelled as
`dbScores`); with no username it returns `[0, 0, 0]` immediately.  The
result is the JSON array `[positive, neutral, negative]`. -/

/-- The counting step of `generate_sentiment_distribution` (lines 49–56):
`pos = #{s > 0.05}`, `neg = #{s < -0.05}`, `neu = len - pos - neg`. -/
def sdCounts (values : List ℚ) : List ℤ :=
  if values.isEmpty then [0, 0, 0]
  else
    let pos : ℤ := values.countP (fun s => decide ((0.05 : ℚ) < s))
    let neg : ℤ := values.countP (fun s => decide (s < (-0.05 : ℚ)))
    [pos, (values.length : ℤ) - pos - neg, neg]

/-- The list of sentiment values the function actually considers: the
non-null entries of `sentiment_values` if given, else the non-null DB scores
if a username was given, else nothing. -/
def sd_considered (sentiment_values : Option (List (Option ℚ)))
    (usernameGiven : Bool) (dbScores : List (Option ℚ)) : List ℚ :=
  match sentiment_values with
  | some l => l.filterMap id
  | none => if usernameGiven then dbScores.filterMap id else []

/-- Shallow embedding of `generate_sentiment_distribution`. -/
def generate_sentiment_distribution (sentiment_values : Option (List (Option ℚ)))
    (usernameGiven : Bool) (dbScores : List (Option ℚ)) : List ℤ :=
  match sentiment_values with
  | some l => sdCounts (l.filterMap id)
  | none =>
    if usernameGiven then sdCounts (dbScores.filterMap id) else [0, 0, 0]

theorem sdCounts_spec (values : List ℚ) :
    (sdCounts values).length = 3 ∧ (∀ x ∈ sdCounts values, 0 ≤ x) ∧
    (sdCounts values).sum = values.length := by
  by_cases h : values.isEmpty
  · rw [List.isEmpty_iff] at h
    subst h
    refine ⟨rfl, ?_, rfl⟩
    intro x hx
    simp [sdCounts] at hx
    omega
  · have hle : values.countP (fun s => decide ((0.05 : ℚ) < s)) +
        values.countP (fun s => decide (s < (-0.05 : ℚ))) ≤ values.length := by
      clear h
      induction values with
      | nil => simp
      | cons a t ih =>
        by_cases h1 : (0.05 : ℚ) < a
        · have h2 : ¬ (a < (-0.05 : ℚ)) := by linarith
          simp [List.countP_cons, h1, h2]
          omega
        · by_cases h2 : a < (-0.05 : ℚ) <;> simp [List.countP_cons, h1, h2] <;>
            omega
    simp only [sdCounts, h, Bool.false_eq_true, if_false]
    refine ⟨rfl, ?_, ?_⟩
    · intro x hx
      have h1 : (values.countP (fun s => decide ((0.05 : ℚ) < s)) : ℤ) ≤
          (values.length : ℤ) := by
        exact_mod_cast List.countP_le_length _
      simp only [List.mem_cons, List.not_mem_nil, or_false] at hx
      rcases hx with hx | hx | hx <;> subst hx <;> omega
    · simp only [List.sum_cons, List.sum_nil]
      omega

/-- C10: on every input path (explicit sentiment-value list, or a DB query
gated on a username), `generate_sentiment_distribution` returns a
`[positive, neutral, negative]` array of three non-negative integers whose
sum is the number of non-null sentiment values considered, and returns
`[0, 0, 0]` when there are no values. -/
theorem c10_distribution_invariants (sv : Option (List (Option ℚ)))
    (ug : Bool) (db : List (Option ℚ)) :
    (generate_sentiment_distribution sv ug db).length = 3 ∧
    (∀ x ∈ generate_sentiment_distribution sv ug db, 0 ≤ x) ∧
    (generate_sentiment_distribution sv ug db).sum =
      (sd_considered sv ug db).length ∧
    (sd_considered sv ug db = [] →
      generate_sentiment_distribution sv ug db = [0, 0, 0]) := by
  have hmain : generate_sentiment_distribution sv ug db =
      sdCounts (sd_considered sv ug db) ∨
      (generate_sentiment_distribution sv ug db = [0, 0, 0] ∧
        sd_considered sv ug db = []) := by
    match sv with
    | some l => exact Or.inl rfl
    | none =>
      cases ug with
      | true => exact Or.inl rfl
      | false => exact Or.inr ⟨rfl, rfl⟩
  rcases hmain with hm | ⟨hm, hc⟩
  · obtain ⟨hl, hn, hs⟩ := sdCounts_spec (sd_considered sv ug db)
    rw [hm]
    refine ⟨hl, hn, hs, ?_⟩
    intro he
    rw [he]
    rfl
  · rw [hm, hc]
    refine ⟨rfl, ?_, rfl, fun _ => rfl⟩
    intro x hx
    simp at hx
    omega

/-- C10 witness: with no explicit values and no username the function
considers nothing and returns `[0, 0, 0]`. -/
theorem c10_distribution_invariants_witness :
    generate_sentiment_distribution none false [] = [0, 0, 0] :=
  (c10_distribution_invariants none false []).2.2.2 rfl

/-! ## Entity graph builder (profiles/utils/entity_graph.py, lines 80–100)

`generate_entity_graph` extracts a deduplicated entity list per post (the
spaCy/regex extractor ends with `list(set(ents))`, so each per-post entity
list has no duplicates — reflected in the `Nodup` hypotheses below) and adds
the `networkx` undirected edges: for all index pairs `i < j` it increments
the weight of edge `(entities[i], entities[j])`, creating it with weight 1.
A `networkx` undirected edge is keyed by an unordered pair; an edge list
entry `(a, b, w)` matches the query `(x, y)` when `{a,b} = {x,y}`
(`keyMatch`), and `edgeWeight` sums the weights of the matching entries
(for the graphs reachable here there is at most one).  When the graph ends
up with zero nodes — equivalently no edges, since nodes are only created by
`add_edge` — the function returns `None`. -/

/-- Boolean unordered-pair equality: edge `(a, b)` matches query `(x, y)`. -/
def keyMatch (a b x y : String) : Bool :=
  decide ((a = x ∧ b = y) ∨ (a = y ∧ b = x))

/-- An edge list entry is `(endpoint, endpoint, weight)`. -/
abbrev EdgeList := List (String × String × ℕ)

/-- Model of `G.has_edge(a, b)` on the edge list. -/
def hasEdge (g : EdgeList) (a b : String) : Bool :=
  g.any fun e => keyMatch e.1 e.2.1 a b

/-- Model of `G[a][b]["weight"] += 1`: bump the first matching entry. -/
def bumpEdge : EdgeList → String → String → EdgeList
  | [], _, _ => []
  | e :: es, a, b =>
    if keyMatch e.1 e.2.1 a b then (e.1, e.2.1, e.2.2 + 1) :: es
    else e :: bumpEdge es a b

/-- The body of the inner double loop of `generate_entity_graph`:
increment the edge weight if the edge exists, else add it with weight 1. -/
def addEdgeNx (g : EdgeList) (a b : String) : EdgeList :=
  if hasEdge g a b then bumpEdge g a b else g ++ [(a, b, 1)]

/-- All pairs `(entities[i], entities[j])` with `i < j`, in loop order. -/
def orderedPairs {α : Type} : List α → List (α × α)
  | [] => []
  | x :: xs => (xs.map fun y => (x, y)) ++ orderedPairs xs

/-- Process one post's entity list (the double loop over `i < j`). -/
def ingestPost (g : EdgeList) (es : List String) : EdgeList :=
  (orderedPairs es).foldl (fun g2 p => addEdgeNx g2 p.1 p.2) g

/-- The graph accumulated over all posts. -/
def buildEntityGraph (posts : List (List String)) : EdgeList :=
  posts.foldl ingestPost []

/-- Shallow embedding of `generate_entity_graph`: `None` when there are no
posts or the accumulated graph has zero nodes (no edges). -/
def generate_entity_graph (posts : List (List String)) : Option EdgeList :=
  if posts.isEmpty then none
  else
    let g := buildEntityGraph posts
    if g.isEmpty then none else some g

/-- Total weight of the entries matching the unordered pair `(a, b)`. -/
def edgeWeight (g : EdgeList) (a b : String) : ℕ :=
  ((g.filter fun e => keyMatch e.1 e.2.1 a b).map fun e => e.2.2).sum

theorem keyMatch_congr {a b x y : String} (h : keyMatch a b x y = true)
    (u v : String) : keyMatch a b u v = keyMatch x y u v := by
  simp only [keyMatch, decide_eq_true_eq] at h
  apply decide_eq_decide.mpr
  rcases h with ⟨h1, h2⟩ | ⟨h1, h2⟩ <;> subst h1 <;> subst h2 <;> tauto

theorem edgeWeight_append (g1 g2 : EdgeList) (a b : String) :
    edgeWeight (g1 ++ g2) a b = edgeWeight g1 a b + edgeWeight g2 a b := by
  simp [edgeWeight, List.filter_append]

theorem edgeWeight_bumpEdge (g : EdgeList) (x y a b : String)
    (h : hasEdge g x y = true) :
    edgeWeight (bumpEdge g x y) a b =
      edgeWeight g a b + (if keyMatch x y a b then 1 else 0) := by
  induction g with
  | nil => simp [hasEdge] at h
  | cons e es ih =>
    by_cases he : keyMatch e.1 e.2.1 x y = true
    · rw [show bumpEdge (e :: es) x y = (e.1, e.2.1, e.2.2 + 1) :: es by
        simp [bumpEdge, he]]
      rw [← keyMatch_congr he a b]
      by_cases hea : keyMatch e.1 e.2.1 a b = true
      · simp [edgeWeight, List.filter_cons, hea]
        omega
      · simp [edgeWeight, List.filter_cons, hea]
    · have hes : hasEdge es x y = true := by
        simp only [hasEdge, List.any_cons, Bool.or_eq_true] at h
        rcases h with h | h
        · exact absurd h he
        · exact h
      rw [show bumpEdge (e :: es) x y = e :: bumpEdge es x y by
        simp [bumpEdge, he]]
      by_cases hea : keyMatch e.1 e.2.1 a b = true
      · simp [edgeWeight, List.filter_cons, hea] at ih ⊢
        rw [ih hes]
        omega
      · simp [edgeWeight, List.filter_cons, hea] at ih ⊢
        exact ih hes

theorem edgeWeight_addEdgeNx (g : EdgeList) (x y a b : String) :
    edgeWeight (addEdgeNx g x y) a b =
      edgeWeight g a b + (if keyMatch x y a b then 1 else 0) := by
  by_cases h : hasEdge g x y = true
  · simp only [addEdgeNx, h, if_true]
    exact edgeWeight_bumpEdge g x y a b h
  · simp only [addEdgeNx, h, Bool.false_eq_true, if_false]
    rw [edgeWeight_append]
    congr 1
    by_cases hk : keyMatch x y a b = true <;>
      simp [edgeWeight, List.filter_cons, hk]

theorem edgeWeight_foldl_pairs (l : List (String × String)) (g : EdgeList)
    (a b : String) :
    edgeWeight (l.foldl (fun g2 p => addEdgeNx g2 p.1 p.2) g) a b =
      edgeWeight g a b + l.countP (fun p => keyMatch p.1 p.2 a b) := by
  induction l generalizing g with
  | nil => simp
  | cons p t ih =>
    rw [List.foldl_cons, ih, edgeWeight_addEdgeNx, List.countP_cons]
    by_cases hk : keyMatch p.1 p.2 a b = true
    · simp [hk]
      try omega
    · simp [hk]
      try omega

theorem mem_orderedPairs {α : Type} (es : List α) (p : α × α)
    (h : p ∈ orderedPairs es) : p.1 ∈ es ∧ p.2 ∈ es := by
  induction es with
  | nil => simp [orderedPairs] at h
  | cons x xs ih =>
    simp only [orderedPairs, List.mem_append, List.mem_map] at h
    rcases h with ⟨y, hy, hp⟩ | h
    · subst hp
      exact ⟨List.mem_cons_self x xs, List.mem_cons_of_mem x hy⟩
    · obtain ⟨h1, h2⟩ := ih h
      exact ⟨List.mem_cons_of_mem x h1, List.mem_cons_of_mem x h2⟩

theorem orderedPairs_ne {α : Type} (es : List α) (hnd : es.Nodup)
    (p : α × α) (h : p ∈ orderedPairs es) : p.1 ≠ p.2 := by
  induction es with
  | nil => simp [orderedPairs] at h
  | cons x xs ih =>
    rw [List.nodup_cons] at hnd
    simp only [orderedPairs, List.mem_append, List.mem_map] at h
    rcases h with ⟨y, hy, hp⟩ | h
    · subst hp
      intro hxy
      simp only at hxy
      exact hnd.1 (hxy ▸ hy)
    · exact ih hnd.2 h

theorem countP_keyMatch_eq_count (xs : List String) (x a b : String)
    (hxa : x = a) (hxb : x ≠ b) :
    xs.countP ((fun p => keyMatch p.1 p.2 a b) ∘ fun y => (x, y)) =
      xs.count b := by
  rw [List.count_eq_countP]
  apply List.countP_congr
  intro y _
  subst hxa
  simp only [Function.comp, keyMatch, decide_eq_true_eq, beq_iff_eq]
  tauto

theorem countP_keyMatch_eq_count' (xs : List String) (x a b : String)
    (hxb : x = b) (hxa : x ≠ a) :
    xs.countP ((fun p => keyMatch p.1 p.2 a b) ∘ fun y => (x, y)) =
      xs.count a := by
  rw [List.count_eq_countP]
  apply List.countP_congr
  intro y _
  subst hxb
  simp only [Function.comp, keyMatch, decide_eq_true_eq, beq_iff_eq]
  tauto

theorem countP_orderedPairs_avoid (xs : List String) (a b x : String)
    (hx : x ∉ xs) (hor : x = a ∨ x = b)
    (hpair : ∀ p : String × String, p ∈ orderedPairs xs →
      p.1 ∈ xs ∧ p.2 ∈ xs) :
    (orderedPairs xs).countP (fun p => keyMatch p.1 p.2 a b) = 0 := by
  rw [List.countP_eq_zero]
  intro p hp
  obtain ⟨h1, h2⟩ := hpair p hp
  simp only [keyMatch, decide_eq_true_eq]
  rintro (⟨ha, hb⟩ | ⟨ha, hb⟩) <;> rcases hor with hx2 | hx2 <;> subst hx2
  · exact hx (ha ▸ h1)
  · exact hx (hb ▸ h2)
  · exact hx (hb ▸ h2)
  · exact hx (ha ▸ h1)

theorem countP_orderedPairs_nodup (es : List String) (hnd : es.Nodup)
    (a b : String) (hab : a ≠ b) :
    (orderedPairs es).countP (fun p => keyMatch p.1 p.2 a b) =
      if a ∈ es ∧ b ∈ es then 1 else 0 := by
  induction es with
  | nil => simp [orderedPairs]
  | cons x xs ih =>
    rw [List.nodup_cons] at hnd
    obtain ⟨hx, hxs⟩ := hnd
    rw [show orderedPairs (x :: xs) =
          (xs.map fun y => (x, y)) ++ orderedPairs xs from rfl,
        List.countP_append, List.countP_map]
    by_cases hxa : x = a
    · have hxb : x ≠ b := fun h => hab (hxa ▸ h)
      rw [countP_keyMatch_eq_count xs x a b hxa hxb,
        countP_orderedPairs_avoid xs a b x hx (Or.inl hxa)
          (fun p hp => mem_orderedPairs xs p hp),
        List.count_eq_of_nodup hxs]
      subst hxa
      by_cases hbxs : b ∈ xs
      · simp [hbxs, List.mem_cons]
      · have hbx : ¬ (b = x) := fun h => hab h.symm
        simp [hbxs, List.mem_cons, hbx]
    · by_cases hxb : x = b
      · rw [countP_keyMatch_eq_count' xs x a b hxb hxa,
          countP_orderedPairs_avoid xs a b x hx (Or.inr hxb)
            (fun p hp => mem_orderedPairs xs p hp),
          List.count_eq_of_nodup hxs]
        subst hxb
        by_cases haxs : a ∈ xs
        · simp [haxs, List.mem_cons]
        · have hax : ¬ (a = x) := hxa ∘ Eq.symm
          simp [haxs, List.mem_cons, hax]
      · have hmap : xs.countP ((fun p => keyMatch p.1 p.2 a b) ∘
            fun y => (x, y)) = 0 := by
          rw [List.countP_eq_zero]
          intro y _
          simp only [Function.comp, keyMatch, decide_eq_true_eq]
          rintro (⟨h1, _⟩ | ⟨h1, _⟩)
          · exact hxa h1
          · exact hxb h1
        rw [hmap, ih hxs, Nat.zero_add]
        have hax : ¬ (a = x) := hxa ∘ Eq.symm
        have hbx : ¬ (b = x) := hxb ∘ Eq.symm
        simp [List.mem_cons, hax, hbx]

theorem edgeWeight_ingestPost (g : EdgeList) (es : List String)
    (a b : String) :
    edgeWeight (ingestPost g es) a b =
      edgeWeight g a b +
        (orderedPairs es).countP (fun p => keyMatch p.1 p.2 a b) :=
  edgeWeight_foldl_pairs (orderedPairs es) g a b

theorem edgeWeight_foldl_ingest (posts : List (List String)) (g : EdgeList)
    (hnd : ∀ es ∈ posts, es.Nodup) (a b : String) (hab : a ≠ b) :
    edgeWeight (posts.foldl ingestPost g) a b =
      edgeWeight g a b +
        posts.countP (fun es => decide (a ∈ es) && decide (b ∈ es)) := by
  induction posts generalizing g with
  | nil => simp
  | cons es t ih =>
    rw [List.foldl_cons,
      ih (ingestPost g es) (fun e he => hnd e (List.mem_cons_of_mem es he)),
      edgeWeight_ingestPost,
      countP_orderedPairs_nodup es (hnd es (List.mem_cons_self es t)) a b hab,
      List.countP_cons]
    by_cases hm : a ∈ es ∧ b ∈ es
    · simp [hm.1, hm.2]
      omega
    · rw [if_neg hm]
      have : (decide (a ∈ es) && decide (b ∈ es)) = false := by
        rcases not_and_or.mp hm with h | h <;> simp [h]
      simp [this]

theorem edgeWeight_foldl_ingest_self (posts : List (List String))
    (g : EdgeList) (hnd : ∀ es ∈ posts, es.Nodup) (a : String) :
    edgeWeight (posts.foldl ingestPost g) a a = edgeWeight g a a := by
  induction posts generalizing g with
  | nil => simp
  | cons es t ih =>
    rw [List.foldl_cons,
      ih (ingestPost g es) (fun e he => hnd e (List.mem_cons_of_mem es he)),
      edgeWeight_ingestPost]
    have hz : (orderedPairs es).countP (fun p => keyMatch p.1 p.2 a a) = 0 := by
      rw [List.countP_eq_zero]
      intro p hp
      have hne := orderedPairs_ne es (hnd es (List.mem_cons_self es t)) p hp
      simp only [keyMatch, decide_eq_true_eq]
      rintro (⟨h1, h2⟩ | ⟨h1, h2⟩) <;> exact hne (h1.trans h2.symm)
    rw [hz, Nat.add_zero]

/-- C7: for every set of posts (with per-post deduplicated entity lists, as
produced by `list(set(...))` in the extractor), the entity graph builder
gives the unordered pair `(a, b)` of distinct entities the edge weight equal
to the number of posts whose entity set contains both, creates no self-loop
edges, and returns `None` exactly when the accumulated graph has no nodes;
in particular the two posts `{#ai, OpenAI}` and `{#ai, GPT}` give edge
`(#ai, OpenAI)` weight 1, edge `(#ai, GPT)` weight 1, and no edge
`(OpenAI, GPT)`. -/
theorem c7_entity_graph_cooccurrence (posts : List (List String))
    (hnd : ∀ es ∈ posts, es.Nodup) :
    (∀ a b : String, a ≠ b →
      edgeWeight (buildEntityGraph posts) a b =
        posts.countP (fun es => decide (a ∈ es) && decide (b ∈ es))) ∧
    (∀ a : String, edgeWeight (buildEntityGraph posts) a a = 0) ∧
    (generate_entity_graph posts = none ↔ buildEntityGraph posts = []) ∧
    (edgeWeight (buildEntityGraph [["#ai", "OpenAI"], ["#ai", "GPT"]])
        "#ai" "OpenAI" = 1 ∧
      edgeWeight (buildEntityGraph [["#ai", "OpenAI"], ["#ai", "GPT"]])
        "#ai" "GPT" = 1 ∧
      edgeWeight (buildEntityGraph [["#ai", "OpenAI"], ["#ai", "GPT"]])
        "OpenAI" "GPT" = 0) := by
  refine ⟨?_, ?_, ?_, by decide, by decide, by decide⟩
  · intro a b hab
    simpa [buildEntityGraph, edgeWeight] using
      edgeWeight_foldl_ingest posts [] hnd a b hab
  · intro a
    simpa [buildEntityGraph, edgeWeight] using
      edgeWeight_foldl_ingest_self posts [] hnd a
  · match posts with
    | [] => simp [generate_entity_graph, buildEntityGraph]
    | es :: t =>
      simp only [generate_entity_graph, List.isEmpty_cons, Bool.false_eq_true,
        if_false]
      by_cases hg : (buildEntityGraph (es :: t)).isEmpty = true
      · rw [List.isEmpty_iff] at hg
        simp [hg]
      · have hne : buildEntityGraph (es :: t) ≠ [] := by
          intro he
          exact hg (by simp [he])
        rw [if_neg hg]
        simp [hne]

/-- C7 witness: the co-occurrence weight law applied to the claim's concrete
two-post input at the pair `(#ai, OpenAI)`, discharging the `Nodup` and
distinctness hypotheses by computation. -/
theorem c7_entity_graph_cooccurrence_witness :
    edgeWeight (buildEntityGraph [["#ai", "OpenAI"], ["#ai", "GPT"]])
      "#ai" "OpenAI" =
      [["#ai", "OpenAI"], ["#ai", "GPT"]].countP
        (fun es => decide ("#ai" ∈ es) && decide ("OpenAI" ∈ es)) :=
  (c7_entity_graph_cooccurrence [["#ai", "OpenAI"], ["#ai", "GPT"]]
    (by decide)).1 "#ai" "OpenAI" (by decide)

/-! ## `compute_posting_patterns` (profiles/tasks.py, lines 293–300)

The helper builds a DataFrame of post timestamps and derives
`avg_post_time = f"{int(df['hour'].mode()[0])}:00"` and
`most_active_days = df['weekday'].value_counts().head(3).index.tolist()`.
Only `t.hour` and `t.strftime("%A")` are read from each timestamp, so a
timestamp is modelled as its `(hour, weekday-name)` projection.
`pandas.Series.mode()` returns the most frequent values in ascending order,
so `mode()[0]` is the smallest value of maximal count (`pandasModeHead`).
`pandas.Series.value_counts()` returns the distinct values keyed in order of
first appearance, stably sorted by count descending — ties keep
first-appearance order (`value_counts`, built from `uniquesInOrder` and the
stable insertion sort `sortByCountDesc`). -/

structure PostTime where
  hour : ℕ
  weekday : String
  deriving DecidableEq, Repr

/-- The distinct values of `l` in order of first appearance. -/
def uniquesInOrder {α : Type} [DecidableEq α] (l : List α) : List α :=
  l.foldl (fun acc x => if x ∈ acc then acc else acc ++ [x]) []

/-- Stable insertion (descending by count): the new entry goes before the
first entry of strictly smaller count, hence after all earlier ties. -/
def insertByCount {α : Type} (e : α × ℕ) : List (α × ℕ) → List (α × ℕ)
  | [] => [e]
  | f :: fs => if e.2 < f.2 then f :: insertByCount e fs else e :: f :: fs

/-- Stable sort by count descending. -/
def sortByCountDesc {α : Type} : List (α × ℕ) → List (α × ℕ)
  | [] => []
  | x :: xs => insertByCount x (sortByCountDesc xs)

/-- Model of `pandas.Series.value_counts()`. -/
def value_counts {α : Type} [DecidableEq α] (l : List α) : List (α × ℕ) :=
  sortByCountDesc ((uniquesInOrder l).map fun x => (x, l.count x))

/-- Model of `pandas.Series.mode()[0]`: the smallest value of maximal
multiplicity. -/
def pandasModeHead (l : List ℕ) : ℕ :=
  let u := uniquesInOrder l
  let m := (u.map fun x => l.count x).foldl max 0
  ((u.filter fun x => l.count x == m).min?).getD 0

/-- Shallow embedding of `compute_posting_patterns`: `(None, [])` on an
empty frame, else the mode hour rendered as `"H:00"` and the top-3 weekdays
of `value_counts`. -/
def compute_posting_patterns (ts : List PostTime) : Option String × List String :=
  if ts.isEmpty then (none, [])
  else
    (some (toString (pandasModeHead (ts.map PostTime.hour)) ++ ":00"),
      ((value_counts (ts.map PostTime.weekday)).take 3).map Prod.fst)

theorem mem_foldl_uniques {α : Type} [DecidableEq α] (l : List α) :
    ∀ (acc : List α) (x : α),
      (x ∈ l.foldl (fun acc2 y => if y ∈ acc2 then acc2 else acc2 ++ [y]) acc ↔
        x ∈ acc ∨ x ∈ l) := by
  induction l with
  | nil => intro acc x; simp
  | cons h t ih =>
    intro acc x
    rw [List.foldl_cons]
    by_cases hh : h ∈ acc
    · rw [if_pos hh, ih]
      constructor
      · rintro (hx | hx)
        · exact Or.inl hx
        · exact Or.inr (List.mem_cons_of_mem h hx)
      · rintro (hx | hx)
        · exact Or.inl hx
        · rcases List.mem_cons.mp hx with hx | hx
          · exact Or.inl (hx ▸ hh)
          · exact Or.inr hx
    · rw [if_neg hh, ih]
      simp only [List.mem_append, List.mem_singleton, List.mem_cons]
      tauto

theorem mem_uniquesInOrder {α : Type} [DecidableEq α] (l : List α) (x : α) :
    x ∈ uniquesInOrder l ↔ x ∈ l := by
  rw [uniquesInOrder, mem_foldl_uniques]
  simp

theorem le_foldl_max (l : List ℕ) : ∀ (init : ℕ),
    init ≤ l.foldl max init ∧ ∀ a ∈ l, a ≤ l.foldl max init := by
  induction l with
  | nil => intro init; simp
  | cons h t ih =>
    intro init
    rw [List.foldl_cons]
    obtain ⟨h1, h2⟩ := ih (max init h)
    refine ⟨le_trans (le_max_left init h) h1, ?_⟩
    intro a ha
    rcases List.mem_cons.mp ha with rfl | ha
    · exact le_trans (le_max_right init a) h1
    · exact h2 a ha

theorem foldl_max_cases (l : List ℕ) : ∀ (init : ℕ),
    l.foldl max init = init ∨ l.foldl max init ∈ l := by
  induction l with
  | nil => intro init; simp
  | cons h t ih =>
    intro init
    rw [List.foldl_cons]
    rcases ih (max init h) with hc | hc
    · rcases max_choice init h with hm | hm
      · exact Or.inl (by rw [hc, hm])
      · refine Or.inr ?_
        rw [hc, hm]
        exact List.mem_cons_self h t
    · exact Or.inr (List.mem_cons_of_mem h hc)

theorem insertByCount_perm {α : Type} (e : α × ℕ) (l : List (α × ℕ)) :
    (insertByCount e l).Perm (e :: l) := by
  induction l with
  | nil => simp [insertByCount]
  | cons f fs ih =>
    by_cases hc : e.2 < f.2
    · rw [show insertByCount e (f :: fs) = f :: insertByCount e fs by
        simp [insertByCount, hc]]
      exact (List.Perm.cons f ih).trans (List.Perm.swap e f fs)
    · rw [show insertByCount e (f :: fs) = e :: f :: fs by
        simp [insertByCount, hc]]

theorem sortByCountDesc_perm {α : Type} (l : List (α × ℕ)) :
    (sortByCountDesc l).Perm l := by
  induction l with
  | nil => simp [sortByCountDesc]
  | cons x xs ih =>
    exact (insertByCount_perm x (sortByCountDesc xs)).trans (List.Perm.cons x ih)

theorem sorted_insertByCount {α : Type} (e : α × ℕ) (l : List (α × ℕ))
    (h : l.Pairwise (fun p q => q.2 ≤ p.2)) :
    (insertByCount e l).Pairwise (fun p q => q.2 ≤ p.2) := by
  induction l with
  | nil => simp [insertByCount]
  | cons f fs ih =>
    rw [List.pairwise_cons] at h
    obtain ⟨hf, hfs⟩ := h
    by_cases hc : e.2 < f.2
    · rw [show insertByCount e (f :: fs) = f :: insertByCount e fs by
        simp [insertByCount, hc]]
      rw [List.pairwise_cons]
      refine ⟨?_, ih hfs⟩
      intro q hq
      have := (insertByCount_perm e fs).mem_iff.mp hq
      rcases List.mem_cons.mp this with hq2 | hq2
      · exact hq2 ▸ le_of_lt hc
      · exact hf q hq2
    · rw [show insertByCount e (f :: fs) = e :: f :: fs by
        simp [insertByCount, hc]]
      rw [List.pairwise_cons]
      refine ⟨?_, List.pairwise_cons.mpr ⟨hf, hfs⟩⟩
      intro q hq
      have hfe : f.2 ≤ e.2 := not_lt.mp hc
      rcases List.mem_cons.mp hq with hq2 | hq2
      · exact hq2 ▸ hfe
      · exact le_trans (hf q hq2) hfe

theorem sorted_sortByCountDesc {α : Type} (l : List (α × ℕ)) :
    (sortByCountDesc l).Pairwise (fun p q => q.2 ≤ p.2) := by
  induction l with
  | nil => simp [sortByCountDesc]
  | cons x xs ih => exact sorted_insertByCount x (sortByCountDesc xs) ih

theorem pandasModeHead_spec (l : List ℕ) (hne : l ≠ []) :
    pandasModeHead l ∈ l ∧
    (∀ x ∈ l, l.count x ≤ l.count (pandasModeHead l)) ∧
    (∀ x ∈ l, l.count x = l.count (pandasModeHead l) → pandasModeHead l ≤ x) := by
  obtain ⟨a0, ha0⟩ := List.exists_mem_of_ne_nil l hne
  have ha0u : a0 ∈ uniquesInOrder l := (mem_uniquesInOrder l a0).mpr ha0
  have hmax_ge : ∀ x ∈ uniquesInOrder l, l.count x ≤
      ((uniquesInOrder l).map fun x => l.count x).foldl max 0 := by
    intro x hx
    exact (le_foldl_max _ 0).2 _ (List.mem_map_of_mem _ hx)
  have hm_pos : 1 ≤ ((uniquesInOrder l).map fun x => l.count x).foldl max 0 :=
    le_trans (List.count_pos_iff.mpr ha0) (hmax_ge a0 ha0u)
  have hm_attained : ∃ x0 ∈ uniquesInOrder l,
      l.count x0 = ((uniquesInOrder l).map fun x => l.count x).foldl max 0 := by
    rcases foldl_max_cases ((uniquesInOrder l).map fun x => l.count x) 0 with
      hc | hc
    · omega
    · obtain ⟨x0, hx0, he⟩ := List.mem_map.mp hc
      exact ⟨x0, hx0, he⟩
  obtain ⟨x0, hx0u, hx0m⟩ := hm_attained
  have hx0f : x0 ∈ (uniquesInOrder l).filter
      (fun x => l.count x ==
        ((uniquesInOrder l).map fun x => l.count x).foldl max 0) := by
    rw [List.mem_filter]
    exact ⟨hx0u, by simp [hx0m]⟩
  have hfne : ((uniquesInOrder l).filter
      (fun x => l.count x ==
        ((uniquesInOrder l).map fun x => l.count x).foldl max 0)) ≠ [] :=
    List.ne_nil_of_mem hx0f
  obtain ⟨mn, hmn⟩ := Option.isSome_iff_exists.mp
    (List.isSome_min?_of_mem hx0f)
  have hmode : pandasModeHead l = mn := by
    simp only [pandasModeHead, hmn, Option.getD_some]
  have hmn_mem := List.min?_mem (fun a b => min_choice a b) hmn
  rw [List.mem_filter] at hmn_mem
  obtain ⟨hmnu, hmnc⟩ := hmn_mem
  have hmnc2 : l.count mn =
      ((uniquesInOrder l).map fun x => l.count x).foldl max 0 := by
    simpa using hmnc
  have hmn_le : ∀ b ∈ (uniquesInOrder l).filter
      (fun x => l.count x ==
        ((uniquesInOrder l).map fun x => l.count x).foldl max 0), mn ≤ b :=
    (List.le_min?_iff (fun a b c => Nat.le_min) hmn).mp (Nat.le_refl mn)
  rw [hmode]
  refine ⟨(mem_uniquesInOrder l mn).mp hmnu, ?_, ?_⟩
  · intro x hx
    rw [hmnc2]
    exact hmax_ge x ((mem_uniquesInOrder l x).mpr hx)
  · intro x hx hcx
    apply hmn_le
    rw [List.mem_filter]
    refine ⟨(mem_uniquesInOrder l x).mpr hx, ?_⟩
    rw [hcx, hmnc2]
    simp

theorem value_counts_perm {α : Type} [DecidableEq α] (l : List α) :
    (value_counts l).Perm ((uniquesInOrder l).map fun x => (x, l.count x)) :=
  sortByCountDesc_perm _

theorem value_counts_entry {α : Type} [DecidableEq α] (l : List α) :
    ∀ e ∈ value_counts l, e.2 = l.count e.1 := by
  intro e he
  have hm := (value_counts_perm l).mem_iff.mp he
  obtain ⟨x, _, rfl⟩ := List.mem_map.mp hm
  rfl

theorem value_counts_keys_perm {α : Type} [DecidableEq α] (l : List α) :
    ((value_counts l).map Prod.fst).Perm (uniquesInOrder l) := by
  have hp := (value_counts_perm l).map Prod.fst
  rw [List.map_map] at hp
  have h2 : List.map (Prod.fst ∘ fun x => (x, l.count x)) (uniquesInOrder l) =
      uniquesInOrder l := by
    rw [show (Prod.fst ∘ fun x => (x, l.count x)) = id from rfl, List.map_id]
  rw [h2] at hp
  exact hp

/-- C8 (amended): for a non-empty list of post timestamps,
`compute_posting_patterns` returns `avgPostHour` rendered as `"H:00"` where
`H` is the most frequent hour with ties broken by the smallest hour value,
and `mostActiveDays` is the first 3 entries of the weekday `value_counts`:
the distinct weekdays ordered by post count descending, with ties kept in
order of first appearance in the data — not by weekday index. -/
theorem c8_posting_patterns (ts : List PostTime) (h : ts ≠ []) :
    ((compute_posting_patterns ts).1 =
        some (toString (pandasModeHead (ts.map PostTime.hour)) ++ ":00") ∧
      pandasModeHead (ts.map PostTime.hour) ∈ ts.map PostTime.hour ∧
      (∀ x ∈ ts.map PostTime.hour,
        (ts.map PostTime.hour).count x ≤
          (ts.map PostTime.hour).count
            (pandasModeHead (ts.map PostTime.hour))) ∧
      (∀ x ∈ ts.map PostTime.hour,
        (ts.map PostTime.hour).count x =
            (ts.map PostTime.hour).count
              (pandasModeHead (ts.map PostTime.hour)) →
          pandasModeHead (ts.map PostTime.hour) ≤ x)) ∧
    ((compute_posting_patterns ts).2 =
        ((value_counts (ts.map PostTime.weekday)).take 3).map Prod.fst ∧
      (value_counts (ts.map PostTime.weekday)).Pairwise
        (fun p q => q.2 ≤ p.2) ∧
      (∀ e ∈ value_counts (ts.map PostTime.weekday),
        e.2 = (ts.map PostTime.weekday).count e.1) ∧
      ((value_counts (ts.map PostTime.weekday)).map Prod.fst).Perm
        (uniquesInOrder (ts.map PostTime.weekday))) := by
  have hcond : ts.isEmpty = false := by
    cases ts with
    | nil => exact absurd rfl h
    | cons a t => rfl
  have hne : ts.map PostTime.hour ≠ [] := by
    cases ts with
    | nil => exact absurd rfl h
    | cons a t => simp
  obtain ⟨m1, m2, m3⟩ := pandasModeHead_spec (ts.map PostTime.hour) hne
  refine ⟨⟨?_, m1, m2, m3⟩,
    ⟨?_, sorted_sortByCountDesc _, value_counts_entry _,
      value_counts_keys_perm _⟩⟩
  · simp [compute_posting_patterns, hcond]
  · simp [compute_posting_patterns, hcond]

/-- C8 counterexample: one post on Friday then one on Monday.  The code's
`value_counts` keeps ties in first-appearance order, so `most_active_days`
is `["Friday", "Monday"]`; the claimed weekday-index tie-break
(Monday=0 < Friday=4) would give `["Monday", "Friday"]`. -/
theorem c8_counterexample :
    (compute_posting_patterns [⟨9, "Friday"⟩, ⟨10, "Monday"⟩]).2 =
      ["Friday", "Monday"] ∧
    (["Friday", "Monday"] : List String) ≠ ["Monday", "Friday"] := by
  decide

/-- C8 witness: the amended theorem's hour component at the concrete
two-post input, discharging the non-emptiness hypothesis by computation. -/
theorem c8_posting_patterns_witness :
    (compute_posting_patterns [⟨9, "Friday"⟩, ⟨10, "Monday"⟩]).1 =
      some (toString (pandasModeHead
        (([⟨9, "Friday"⟩, ⟨10, "Monday"⟩] : List PostTime).map
          PostTime.hour)) ++ ":00") :=
  (c8_posting_patterns [⟨9, "Friday"⟩, ⟨10, "Monday"⟩] (by decide)).1.1

/-! ## `extract_keywords` and the generic analysis branch
(profiles/tasks.py, lines 302–306 and 463–483)

`extract_keywords` collects `re.findall(r"#(\w+)", text)` (the hashtag words,
without the `#`) plus `re.findall(r"\b[a-zA-Z]{4,}\b", text.lower())` (the
maximal word-character runs that consist solely of letters and have length
at least 4) and keeps the top 10 of their `value_counts`.  The regexes are
modelled by explicit left-to-right scanners over `List Char`. -/

/-- Python's `\w` (ASCII): letters, digits, underscore. -/
def isWordChar (c : Char) : Bool := c.isAlphanum || c == '_'

/-- Model of `re.findall(r"#(\w+)", text)`: for each `#` followed by a
non-empty word-character run, yield the run (without the `#`). -/
def findHashtags : List Char → List (List Char)
  | [] => []
  | '#' :: rest =>
    let run := rest.takeWhile isWordChar
    if run.isEmpty then findHashtags rest
    else run :: findHashtags (rest.dropWhile isWordChar)
  | _ :: rest => findHashtags rest
termination_by l => l.length
decreasing_by
  · simp
  · have := (List.dropWhile_sublist (l := rest) isWordChar).length_le
    simp
    omega
  · simp

/-- The maximal word-character runs of a text, in order. -/
def wordRuns : List Char → List (List Char)
  | [] => []
  | c :: rest =>
    if isWordChar c then
      ((c :: rest).takeWhile isWordChar) ::
        wordRuns ((c :: rest).dropWhile isWordChar)
    else wordRuns rest
termination_by l => l.length
decreasing_by
  · rename_i h
    have := (List.dropWhile_sublist (l := rest) isWordChar).length_le
    simp [List.dropWhile_cons, h]
    omega
  · simp

/-- Model of `re.findall(r"\b[a-zA-Z]{4,}\b", text)`: the maximal
word-character runs that are entirely alphabetic and of length ≥ 4. -/
def findWords (text : List Char) : List (List Char) :=
  (wordRuns text).filter fun r => r.all Char.isAlpha && decide (4 ≤ r.length)

/-- Shallow embedding of `extract_keywords`: hashtag words plus long
alphabetic tokens of the lowercased text, top 10 by `value_counts`, as an
ordered association list (the model of the returned dict). -/
def extract_keywords (text : List Char) : List (List Char × ℕ) :=
  let hashtags := findHashtags text
  let words := findWords (text.map Char.toLower)
  let all := hashtags ++ words
  if all.isEmpty then [] else (value_counts all).take 10

/-- The `SocialMediaAccount` fields read by the generic analysis branch. -/
structure SmAccount where
  followers : ℤ
  following : ℤ
  bio : List Char

/-- The `RawPost` fields read by the generic analysis branch. -/
structure GenericPost where
  content : List Char
  time : PostTime

/-- The `BehavioralAnalysis` fields written by the generic branch. -/
structure AnalysisResult where
  avg_post_time : Option String
  most_active_days : List String
  sentiment_score : ℚ
  top_keywords : List (List Char × ℕ)
  network_size : ℤ
  sentiment_distribution : SentimentDist
  influence_score : ℚ

/-- Shallow embedding of the generic fallback branch of
`perform_behavioral_analysis` (tasks.py lines 463–483): captions are
analyzed with `compute_sentiment_distribution`, keywords come from the
space-joined captions, posting patterns from the timestamps, network size
from the snapshot, and `influence_score = round(network_size *
(sentiment_score + 1), 2)`. -/
def perform_behavioral_analysis_generic (score : List Char → ℚ)
    (sm : Option SmAccount) (posts : List GenericPost) : AnalysisResult :=
  let captions := posts.map GenericPost.content
  let r := compute_sentiment_distribution score captions
  let keyword_freq := extract_keywords (List.intercalate [' '] captions)
  let pat := compute_posting_patterns (posts.map GenericPost.time)
  let network_size : ℤ :=
    match sm with
    | some s => s.followers + s.following
    | none => 0
  { avg_post_time := pat.1
    most_active_days := pat.2
    sentiment_score := r.2.2
    top_keywords := keyword_freq
    network_size := network_size
    sentiment_distribution := r.2.1
    influence_score := pyRound 2 ((network_size : ℚ) * (r.2.2 + 1)) }

/-- C6: for every profile (any snapshot, any sentiment scorer) with zero
posts, the generic behavioral analysis is a total function returning the
neutral results: aggregate `sentiment_score = 0.0`, an empty keyword map,
no average post time (`None`), no active days, and an all-zero sentiment
distribution. -/
theorem c6_zero_posts_neutral (score : List Char → ℚ) (sm : Option SmAccount) :
    (perform_behavioral_analysis_generic score sm []).sentiment_score = 0 ∧
    (perform_behavioral_analysis_generic score sm []).top_keywords = [] ∧
    (perform_behavioral_analysis_generic score sm []).avg_post_time = none ∧
    (perform_behavioral_analysis_generic score sm []).most_active_days = [] ∧
    (perform_behavioral_analysis_generic score sm []).sentiment_distribution =
      ⟨0, 0, 0⟩ := by
  have hs : compute_sentiment_distribution score ([] : List (List Char)) =
      ([], ⟨0, 0, 0⟩, 0) := by
    have : pyRound 2 (((0 : ℚ) - 0) / max 1 ((0 : ℕ) : ℚ)) = 0 := by
      norm_num [pyRound, pyRoundInt]
    simpa [compute_sentiment_distribution, SentimentDist.total] using this
  have hi : List.intercalate [' '] ([] : List (List Char)) = [] := rfl
  have hh : findHashtags [] = [] := by simp [findHashtags]
  have hw : wordRuns [] = [] := by simp [wordRuns]
  have hk : extract_keywords (List.intercalate [' ']
      ([] : List (List Char))) = [] := by
    rw [hi]
    simp [extract_keywords, findWords, hh, hw]
  refine ⟨?_, ?_, ?_, ?_, ?_⟩ <;>
    simp [perform_behavioral_analysis_generic, hs, hk,
      compute_posting_patterns]

/-! ## Association-list upserts (the Record Store model)

`get_or_create` / `update_or_create` keyed on a unique column are modelled
as an upsert on an association list: replace the first entry with the key,
or append a fresh one. -/

/-- Replace the value of the first entry with key `k`. -/
def replaceFirstAssoc {κ β : Type} [DecidableEq κ] :
    List (κ × β) → κ → β → List (κ × β)
  | [], _, _ => []
  | e :: es, k, v =>
    if e.1 = k then (k, v) :: es else e :: replaceFirstAssoc es k v

/-- Upsert: update the existing row for `k`, else insert a new one. -/
def upsertAssoc {κ β : Type} [DecidableEq κ] (db : List (κ × β)) (k : κ)
    (v : β) : List (κ × β) :=
  if db.any (fun e => decide (e.1 = k)) then replaceFirstAssoc db k v
  else db ++ [(k, v)]

/-- First-match lookup (the model of a unique-key row fetch). -/
def lookupAssoc {κ β : Type} [DecidableEq κ] (db : List (κ × β)) (k : κ) :
    Option β :=
  (db.find? fun e => decide (e.1 = k)).map Prod.snd

theorem lookupAssoc_replaceFirst {κ β : Type} [DecidableEq κ]
    (db : List (κ × β)) (k : κ) (v : β)
    (h : db.any (fun e => decide (e.1 = k)) = true) :
    lookupAssoc (replaceFirstAssoc db k v) k = some v := by
  induction db with
  | nil => simp at h
  | cons e es ih =>
    by_cases he : e.1 = k
    · simp [replaceFirstAssoc, he, lookupAssoc, List.find?]
    · have hes : es.any (fun e => decide (e.1 = k)) = true := by
        simp only [List.any_cons, Bool.or_eq_true, decide_eq_true_eq] at h
        rcases h with h | h
        · exact absurd h he
        · exact h
      simp only [replaceFirstAssoc, he, Bool.false_eq_true, if_false]
      simp only [lookupAssoc, List.find?] at ih ⊢
      rw [show (decide (e.1 = k)) = false by simp [he]]
      exact ih hes

theorem lookupAssoc_append_fresh {κ β : Type} [DecidableEq κ]
    (db : List (κ × β)) (k : κ) (v : β)
    (h : db.any (fun e => decide (e.1 = k)) = false) :
    lookupAssoc (db ++ [(k, v)]) k = some v := by
  induction db with
  | nil => simp [lookupAssoc, List.find?]
  | cons e es ih =>
    simp only [List.any_cons, Bool.or_eq_false_iff] at h
    simp only [List.cons_append, lookupAssoc, List.find?, h.1]
    exact ih h.2

theorem lookupAssoc_upsertAssoc {κ β : Type} [DecidableEq κ]
    (db : List (κ × β)) (k : κ) (v : β) :
    lookupAssoc (upsertAssoc db k v) k = some v := by
  by_cases h : db.any (fun e => decide (e.1 = k)) = true
  · rw [upsertAssoc, if_pos h]
    exact lookupAssoc_replaceFirst db k v h
  · rw [upsertAssoc, if_neg h]
    exact lookupAssoc_append_fresh db k v (Bool.eq_false_iff.mpr h)

/-! ## `scrape_instagram_task` terminal failures
(profiles/tasks.py, lines 192–280)

The task calls `scrape_instagram_profile` (the Instaloader scraper from
`profiles/utils/instagram_scraper.py`), which returns `None` on
`ProfileNotExistsException` and on any other internal error, and never
raises.  The task treats `not data` or a dict containing `"error"` as a
permanent failure (lines 203–230): inside one transaction it upserts a
minimal placeholder `Profile` (empty name, no avatar) and a placeholder
`SocialMediaAccount` (`is_private=True`, zero counters), then returns a
failure dict — it does not call `self.retry`.  Rows are keyed by username;
the platform is fixed to Instagram throughout. -/

structure IgProfileRow where
  full_name : List Char
  avatar_url : Option (List Char)
  deriving DecidableEq

structure IgAccountRow where
  bio : List Char
  followers : ℤ
  following : ℤ
  posts_collected : ℤ
  is_private : Bool
  external_url : Option (List Char)
  deriving DecidableEq

structure IgDb where
  profiles : List (List Char × IgProfileRow)
  accounts : List (List Char × IgAccountRow)
  deriving DecidableEq

/-- The fields of a successful `scrape_instagram_profile` result that the
task reads. -/
structure IgValidData where
  full_name : List Char
  profile_pic_url : Option (List Char)
  bio : List Char
  followers : ℤ
  following : ℤ
  posts : ℤ
  is_private : Bool
  external_url : Option (List Char)

/-- Outcome of `scrape_instagram_profile(username)`: `None`, a dict with an
`"error"` key, or valid data. -/
inductive IgFetchOutcome where
  | noData
  | errorData (reason : List Char)
  | valid (d : IgValidData)

/-- Terminal (non-retryable) outcomes: `not data or "error" in data`. -/
def IgFetchOutcome.isTerminal : IgFetchOutcome → Bool
  | .noData => true
  | .errorData _ => true
  | .valid _ => false

/-- One run of the task: resulting store, returned success flag, scheduled
retry countdowns, and the number of terminal-failure returns. -/
structure IgTaskRun where
  db : IgDb
  success : Bool
  retryCountdowns : List ℕ
  failedTransitions : ℕ

/-- The placeholder profile written on permanent failure (lines 208–215):
`full_name = ""`, `avatar_url = None`. -/
def igPlaceholderProfile : IgProfileRow := ⟨[], none⟩

/-- The placeholder snapshot written on permanent failure (lines 217–228):
empty bio, zero counters, `is_private = True`, no external URL. -/
def igPlaceholderAccount : IgAccountRow := ⟨[], 0, 0, 0, true, none⟩

/-- Shallow embedding of `scrape_instagram_task` as a function of the fetch
outcome. -/
def scrape_instagram_task (username : List Char) (outcome : IgFetchOutcome)
    (db : IgDb) : IgTaskRun :=
  match outcome with
  | IgFetchOutcome.valid d =>
    { db :=
        { profiles := upsertAssoc db.profiles username
            ⟨d.full_name, d.profile_pic_url⟩
          accounts := upsertAssoc db.accounts username
            ⟨d.bio, d.followers, d.following, d.posts, d.is_private,
              d.external_url⟩ }
      success := true
      retryCountdowns := []
      failedTransitions := 0 }
  | _ =>
    { db :=
        { profiles := upsertAssoc db.profiles username igPlaceholderProfile
          accounts := upsertAssoc db.accounts username igPlaceholderAccount }
      success := false
      retryCountdowns := []
      failedTransitions := 1 }

/-- C3: every terminal (non-retryable) fetch outcome — handle not found or
private/deleted account, surfaced as `None` or an error dict — makes the
Instagram task fail exactly once with zero scheduled retries, while still
writing the minimal placeholder profile and private snapshot under the
`(username, Instagram)` key. -/
theorem c3_terminal_failure_placeholder (username : List Char)
    (outcome : IgFetchOutcome) (db : IgDb)
    (h : outcome.isTerminal = true) :
    (scrape_instagram_task username outcome db).success = false ∧
    (scrape_instagram_task username outcome db).retryCountdowns = [] ∧
    (scrape_instagram_task username outcome db).failedTransitions = 1 ∧
    lookupAssoc (scrape_instagram_task username outcome db).db.profiles
      username = some igPlaceholderProfile ∧
    lookupAssoc (scrape_instagram_task username outcome db).db.accounts
      username = some igPlaceholderAccount := by
  match outcome with
  | IgFetchOutcome.valid d => simp [IgFetchOutcome.isTerminal] at h
  | IgFetchOutcome.noData =>
    exact ⟨rfl, rfl, rfl, lookupAssoc_upsertAssoc db.profiles username _,
      lookupAssoc_upsertAssoc db.accounts username _⟩
  | IgFetchOutcome.errorData r =>
    exact ⟨rfl, rfl, rfl, lookupAssoc_upsertAssoc db.profiles username _,
      lookupAssoc_upsertAssoc db.accounts username _⟩

/-- C3 witness: a not-found fetch for user `bob` against an empty store. -/
theorem c3_terminal_failure_placeholder_witness :
    (scrape_instagram_task ("bob".toList) IgFetchOutcome.noData
      ⟨[], []⟩).success = false ∧
    (scrape_instagram_task ("bob".toList) IgFetchOutcome.noData
      ⟨[], []⟩).retryCountdowns = [] ∧
    (scrape_instagram_task ("bob".toList) IgFetchOutcome.noData
      ⟨[], []⟩).failedTransitions = 1 ∧
    lookupAssoc (scrape_instagram_task ("bob".toList) IgFetchOutcome.noData
      ⟨[], []⟩).db.profiles ("bob".toList) = some igPlaceholderProfile ∧
    lookupAssoc (scrape_instagram_task ("bob".toList) IgFetchOutcome.noData
      ⟨[], []⟩).db.accounts ("bob".toList) = some igPlaceholderAccount :=
  c3_terminal_failure_placeholder ("bob".toList) IgFetchOutcome.noData
    ⟨[], []⟩ (by decide)

/-! ## Purge operations (`unscrape_*_profile`)

`unscrape_tiktok_profile` (tiktok_scraper.py lines 305–319) and
`unscrape_instagram_profile` (instagram_scraper.py lines 182–192) fetch the
`Profile` row keyed `(username, platform)`; if it exists they delete the
matching `SocialMediaAccount` and `RawPost` rows and then call
`profile.delete()`, which — because every foreign key in `profiles/models.py`
is declared `on_delete=CASCADE` — also removes any remaining rows referencing
the profile, including the `BehavioralAnalysis` row; they return `True`.
On `Profile.DoesNotExist` they return `False`.
`unscrape_github_profile` (github_scraper.py lines 37–43) deletes only the
`SocialMediaAccount` rows and keeps the `Profile` (and with it the posts and
the analysis), returning `True` whenever the profile row exists. -/

inductive Platform where
  | Twitter
  | GitHub
  | Instagram
  | TikTok
  deriving DecidableEq, Repr

/-- The store rows a purge touches: profiles keyed `(username, platform)`;
accounts and posts carry their profile key plus their own platform column;
one analysis row per profile key. -/
structure PurgeDb where
  profiles : List (List Char × Platform)
  accounts : List ((List Char × Platform) × Platform)
  posts : List ((List Char × Platform) × Platform)
  analyses : List (List Char × Platform)
  deriving DecidableEq

def profileExists (db : PurgeDb) (u : List Char) (p : Platform) : Bool :=
  db.profiles.any fun k => decide (k = (u, p))

/-- `profile.delete()` with `on_delete=CASCADE` on every foreign key. -/
def deleteProfileCascade (db : PurgeDb) (key : List Char × Platform) :
    PurgeDb :=
  { profiles := db.profiles.filter fun k => !(decide (k = key))
    accounts := db.accounts.filter fun a => !(decide (a.1 = key))
    posts := db.posts.filter fun a => !(decide (a.1 = key))
    analyses := db.analyses.filter fun k => !(decide (k = key)) }

/-- The shared body of the TikTok and Instagram unscrape helpers: explicit
deletes of the platform's account and post rows, then the cascading profile
delete; `False` when the profile row does not exist. -/
def unscrapeCascade (p : Platform) (u : List Char) (db : PurgeDb) :
    PurgeDb × Bool :=
  if profileExists db u p then
    let key := (u, p)
    let db1 := { db with
      accounts := db.accounts.filter (fun a => !(decide (a.1 = key ∧ a.2 = p))) }
    let db2 := { db1 with
      posts := db1.posts.filter (fun a => !(decide (a.1 = key ∧ a.2 = p))) }
    (deleteProfileCascade db2 key, true)
  else (db, false)

/-- Shallow embedding of `unscrape_tiktok_profile`. -/
def unscrape_tiktok_profile (u : List Char) (db : PurgeDb) : PurgeDb × Bool :=
  unscrapeCascade Platform.TikTok u db

/-- Shallow embedding of `unscrape_instagram_profile`. -/
def unscrape_instagram_profile (u : List Char) (db : PurgeDb) :
    PurgeDb × Bool :=
  unscrapeCascade Platform.Instagram u db

/-- Shallow embedding of `unscrape_github_profile`: deletes only the GitHub
`SocialMediaAccount` rows; the profile, posts and analysis stay. -/
def unscrape_github_profile (u : List Char) (db : PurgeDb) : PurgeDb × Bool :=
  if profileExists db u Platform.GitHub then
    ({ db with
      accounts := db.accounts.filter
        (fun a =>
          !(decide (a.1 = (u, Platform.GitHub) ∧ a.2 = Platform.GitHub))) },
      true)
  else (db, false)

theorem filter_ne_key_any_false {γ : Type} [DecidableEq γ] (l : List γ)
    (key : γ) :
    (l.filter fun k => !(decide (k = key))).any (fun k => decide (k = key)) =
      false := by
  rw [List.any_eq_false]
  intro x hx
  rw [List.mem_filter] at hx
  simp only [Bool.not_eq_true', decide_eq_false_iff_not] at hx
  simp [hx.2]

theorem unscrapeCascade_spec (p : Platform) (u : List Char) (db : PurgeDb) :
    ((unscrapeCascade p u db).2 = profileExists db u p) ∧
    (profileExists (unscrapeCascade p u db).1 u p = false) ∧
    (profileExists db u p = true →
      ((unscrapeCascade p u db).1.accounts.all
          (fun a => !(decide (a.1 = (u, p)))) = true ∧
        (unscrapeCascade p u db).1.posts.all
          (fun a => !(decide (a.1 = (u, p)))) = true ∧
        (unscrapeCascade p u db).1.analyses.all
          (fun k => !(decide (k = (u, p)))) = true)) ∧
    ((unscrapeCascade p u (unscrapeCascade p u db).1).2 = false) := by
  have hall : ∀ (β : Type) [DecidableEq β] (l : List (β × Platform))
      (key : β), (l.filter fun a => !(decide (a.1 = key))).all
        (fun a => !(decide (a.1 = key))) = true := by
    intro β _ l key
    rw [List.all_eq_true]
    intro x hx
    rw [List.mem_filter] at hx
    exact hx.2
  by_cases h : profileExists db u p = true
  · have hgone : profileExists (unscrapeCascade p u db).1 u p = false := by
      simp only [unscrapeCascade, h, if_true]
      exact filter_ne_key_any_false db.profiles (u, p)
    refine ⟨by simp [unscrapeCascade, h], hgone, ?_, ?_⟩
    · intro _
      refine ⟨?_, ?_, ?_⟩
      · simp only [unscrapeCascade, h, if_true, deleteProfileCascade]
        rw [List.all_eq_true]
        intro x hx
        rw [List.mem_filter] at hx
        exact hx.2
      · simp only [unscrapeCascade, h, if_true, deleteProfileCascade]
        rw [List.all_eq_true]
        intro x hx
        rw [List.mem_filter] at hx
        exact hx.2
      · simp only [unscrapeCascade, h, if_true, deleteProfileCascade]
        rw [List.all_eq_true]
        intro x hx
        rw [List.mem_filter] at hx
        exact hx.2
    · rw [show unscrapeCascade p u (unscrapeCascade p u db).1 =
          ((unscrapeCascade p u db).1, false) from by
        rw [unscrapeCascade]
        simp only [hgone, Bool.false_eq_true, if_false]]
  · have hf : profileExists db u p = false := Bool.eq_false_iff.mpr h
    have hid : unscrapeCascade p u db = (db, false) := by
      rw [unscrapeCascade]
      simp [hf]
    refine ⟨by rw [hid, hf], by rw [hid]; exact hf, fun hc => absurd hc h, ?_⟩
    rw [hid]
    show (unscrapeCascade p u db).2 = false
    rw [hid]

/-- C9 (amended): the TikTok and Instagram purges delete the ProfileRecord
together with its snapshot, posts and (via the FK cascade) its analysis,
return `true` exactly when the profile existed, and a second purge of the
same key always returns `false`; the GitHub purge deletes only the snapshot
rows — the profile, posts and analysis remain — and returns `true` whenever
the profile row exists, so a repeated GitHub purge keeps returning `true`
instead of `false`. -/
theorem c9_purge_behavior (u : List Char) (db : PurgeDb) :
    ((unscrape_tiktok_profile u db).2 = profileExists db u Platform.TikTok) ∧
    (profileExists (unscrape_tiktok_profile u db).1 u Platform.TikTok =
      false) ∧
    (profileExists db u Platform.TikTok = true →
      ((unscrape_tiktok_profile u db).1.accounts.all
          (fun a => !(decide (a.1 = (u, Platform.TikTok)))) = true ∧
        (unscrape_tiktok_profile u db).1.posts.all
          (fun a => !(decide (a.1 = (u, Platform.TikTok)))) = true ∧
        (unscrape_tiktok_profile u db).1.analyses.all
          (fun k => !(decide (k = (u, Platform.TikTok)))) = true)) ∧
    ((unscrape_tiktok_profile u ((unscrape_tiktok_profile u db).1)).2 =
      false) ∧
    ((unscrape_instagram_profile u db).2 =
      profileExists db u Platform.Instagram) ∧
    (profileExists (unscrape_instagram_profile u db).1 u Platform.Instagram =
      false) ∧
    (profileExists db u Platform.Instagram = true →
      ((unscrape_instagram_profile u db).1.accounts.all
          (fun a => !(decide (a.1 = (u, Platform.Instagram)))) = true ∧
        (unscrape_instagram_profile u db).1.posts.all
          (fun a => !(decide (a.1 = (u, Platform.Instagram)))) = true ∧
        (unscrape_instagram_profile u db).1.analyses.all
          (fun k => !(decide (k = (u, Platform.Instagram)))) = true)) ∧
    ((unscrape_instagram_profile u
      ((unscrape_instagram_profile u db).1)).2 = false) ∧
    ((unscrape_github_profile u db).2 =
      profileExists db u Platform.GitHub) ∧
    ((unscrape_github_profile u db).1.profiles = db.profiles) ∧
    ((unscrape_github_profile u db).1.posts = db.posts) ∧
    ((unscrape_github_profile u db).1.analyses = db.analyses) ∧
    ((unscrape_github_profile u ((unscrape_github_profile u db).1)).2 =
      profileExists db u Platform.GitHub) := by
  obtain ⟨t1, t2, t3, t4⟩ := unscrapeCascade_spec Platform.TikTok u db
  obtain ⟨i1, i2, i3, i4⟩ := unscrapeCascade_spec Platform.Instagram u db
  have hpres : profileExists (unscrape_github_profile u db).1 u
      Platform.GitHub = profileExists db u Platform.GitHub := by
    by_cases hg : profileExists db u Platform.GitHub = true
    · rw [unscrape_github_profile, if_pos hg]
      rfl
    · rw [unscrape_github_profile, if_neg hg]
  refine ⟨t1, t2, t3, t4, i1, i2, i3, i4, ?_, ?_, ?_, ?_, ?_⟩
  · by_cases hg : profileExists db u Platform.GitHub = true
    · rw [unscrape_github_profile, if_pos hg, hg]
    · rw [unscrape_github_profile, if_neg hg]
      exact (Bool.eq_false_iff.mpr hg).symm
  · by_cases hg : profileExists db u Platform.GitHub = true
    · rw [unscrape_github_profile, if_pos hg]
    · rw [unscrape_github_profile, if_neg hg]
  · by_cases hg : profileExists db u Platform.GitHub = true
    · rw [unscrape_github_profile, if_pos hg]
    · rw [unscrape_github_profile, if_neg hg]
  · by_cases hg : profileExists db u Platform.GitHub = true
    · rw [unscrape_github_profile, if_pos hg]
    · rw [unscrape_github_profile, if_neg hg]
  · rw [show unscrape_github_profile u (unscrape_github_profile u db).1 =
        if profileExists (unscrape_github_profile u db).1 u Platform.GitHub
        then ({ (unscrape_github_profile u db).1 with
          accounts := (unscrape_github_profile u db).1.accounts.filter
            (fun a =>
              !(decide (a.1 = (u, Platform.GitHub) ∧
                a.2 = Platform.GitHub))) }, true)
        else ((unscrape_github_profile u db).1, false) from rfl, hpres]
    by_cases hg : profileExists db u Platform.GitHub = true
    · rw [if_pos hg, hg]
    · rw [if_neg hg]
      exact (Bool.eq_false_iff.mpr hg).symm

/-- C9 counterexample: a GitHub profile for user `a` with a snapshot, one
post and an analysis.  The GitHub purge returns `true` but leaves the
profile, the post and the analysis in place, and purging a second time
returns `true` again — the claim requires the second purge to return
`false`. -/
theorem c9_counterexample :
    (unscrape_github_profile ("a".toList)
        ⟨[("a".toList, Platform.GitHub)],
          [(("a".toList, Platform.GitHub), Platform.GitHub)],
          [(("a".toList, Platform.GitHub), Platform.GitHub)],
          [("a".toList, Platform.GitHub)]⟩).2 = true ∧
    (unscrape_github_profile ("a".toList)
        ⟨[("a".toList, Platform.GitHub)],
          [(("a".toList, Platform.GitHub), Platform.GitHub)],
          [(("a".toList, Platform.GitHub), Platform.GitHub)],
          [("a".toList, Platform.GitHub)]⟩).1.profiles =
      [("a".toList, Platform.GitHub)] ∧
    (unscrape_github_profile ("a".toList)
        ⟨[("a".toList, Platform.GitHub)],
          [(("a".toList, Platform.GitHub), Platform.GitHub)],
          [(("a".toList, Platform.GitHub), Platform.GitHub)],
          [("a".toList, Platform.GitHub)]⟩).1.analyses =
      [("a".toList, Platform.GitHub)] ∧
    (unscrape_github_profile ("a".toList)
      (unscrape_github_profile ("a".toList)
        ⟨[("a".toList, Platform.GitHub)],
          [(("a".toList, Platform.GitHub), Platform.GitHub)],
          [(("a".toList, Platform.GitHub), Platform.GitHub)],
          [("a".toList, Platform.GitHub)]⟩).1).2 = true ∧
    true ≠ false := by
  refine ⟨by decide, by decide, by decide, by decide, by decide⟩

/-- C9 witness: the amended theorem applied to a one-profile TikTok store;
after the purge no analysis row for the key remains. -/
theorem c9_purge_behavior_witness :
    (unscrape_tiktok_profile ("a".toList)
        ⟨[("a".toList, Platform.TikTok)],
          [(("a".toList, Platform.TikTok), Platform.TikTok)],
          [(("a".toList, Platform.TikTok), Platform.TikTok)],
          [("a".toList, Platform.TikTok)]⟩).1.analyses.all
      (fun k => !(decide (k = ("a".toList, Platform.TikTok)))) = true :=
  ((c9_purge_behavior ("a".toList)
      ⟨[("a".toList, Platform.TikTok)],
        [(("a".toList, Platform.TikTok), Platform.TikTok)],
        [(("a".toList, Platform.TikTok), Platform.TikTok)],
        [("a".toList, Platform.TikTok)]⟩).2.2.1 (by decide)).2.2

/-! ## Ingestion idempotence — prefix-deduplicated post saves
(twitter_scrapingbee_scraper.py lines 207–228,
instagram_scrapingbee_scraper.py lines 432–469)

Both scrapers save posts with a crude duplicate check: skip the (stripped,
non-empty) text when a stored row's content case-insensitively contains its
first `keyLen` characters (`content__icontains=text[:keyLen]`), else insert
a row whose content is the text itself; afterwards `posts_count` and
`posts_collected` are recomputed as the stored row count.  Twitter uses
`keyLen = 50` over `tweets[:20]`; Instagram uses `keyLen = 60` over
`recent_posts[:50]`. -/

/-- Python `str.lower()`. -/
def lowerChars (s : List Char) : List Char := s.map Char.toLower

/-- Whether `needle` is an initial segment of `hay`. -/
def startsWithSeg : List Char → List Char → Bool
  | [], _ => true
  | _ :: _, [] => false
  | a :: as, b :: bs => a == b && startsWithSeg as bs

/-- Whether `needle` occurs as a contiguous segment of `hay` (the model of
substring containment). -/
def containsSeg (needle : List Char) : List Char → Bool
  | [] => needle.isEmpty
  | h :: t => startsWithSeg needle (h :: t) || containsSeg needle t

/-- Django `content__icontains=needle` on a stored row. -/
def icontains (stored needle : List Char) : Bool :=
  containsSeg (lowerChars needle) (lowerChars stored)

/-- The scrapers' duplicate test: the stored content case-insensitively
contains the first `keyLen` characters of the incoming text. -/
def postMatches (keyLen : ℕ) (t stored : List Char) : Bool :=
  icontains stored (t.take keyLen)

/-- One iteration of the save loop: strip, skip empties, skip matched
duplicates, else append the row. -/
def dedupSaveStep (keyLen : ℕ) (db : List (List Char))
    (raw : List Char) : List (List Char) :=
  let t := stripChars raw
  if t.isEmpty then db
  else if db.any (fun stored => postMatches keyLen t stored) then db
  else db ++ [t]

/-- The save loop over the first `limit` fetched texts. -/
def savePostsDedup (keyLen limit : ℕ) (db : List (List Char))
    (texts : List (List Char)) : List (List Char) :=
  (texts.take limit).foldl (dedupSaveStep keyLen) db

/-- The post-save loop of `scrape_twitter_profile`. -/
def scrape_twitter_profile_save (db texts : List (List Char)) :
    List (List Char) :=
  savePostsDedup 50 20 db texts

/-- The post-save loop of `scrape_instagram_profile`
(instagram_scrapingbee_scraper.py). -/
def scrape_instagram_profile_save (db texts : List (List Char)) :
    List (List Char) :=
  savePostsDedup 60 50 db texts

theorem startsWithSeg_append_self (x y : List Char) :
    startsWithSeg x (x ++ y) = true := by
  induction x with
  | nil => rfl
  | cons a as ih => simp [startsWithSeg, ih]

theorem containsSeg_nil_needle (y : List Char) :
    containsSeg [] y = true := by
  cases y with
  | nil => rfl
  | cons h t => simp [containsSeg, startsWithSeg]

theorem containsSeg_append_self (x y : List Char) :
    containsSeg x (x ++ y) = true := by
  cases x with
  | nil => exact containsSeg_nil_needle y
  | cons a as =>
    simp only [List.cons_append, containsSeg, Bool.or_eq_true]
    exact Or.inl (startsWithSeg_append_self (a :: as) y)

theorem postMatches_self (keyLen : ℕ) (t : List Char) :
    postMatches keyLen t t = true := by
  rw [postMatches, icontains,
    show lowerChars t =
      lowerChars (t.take keyLen) ++ lowerChars (t.drop keyLen) by
        rw [lowerChars, lowerChars, lowerChars, ← List.map_append,
          List.take_append_drop]]
  exact containsSeg_append_self _ _

theorem dedupSaveStep_ext (keyLen : ℕ) (db : List (List Char))
    (r : List Char) :
    ∃ ext, dedupSaveStep keyLen db r = db ++ ext := by
  rw [dedupSaveStep]
  by_cases h1 : (stripChars r).isEmpty = true
  · exact ⟨[], by simp [h1]⟩
  · by_cases h2 : db.any
        (fun stored => postMatches keyLen (stripChars r) stored) = true
    · exact ⟨[], by simp [h1, h2]⟩
    · exact ⟨[stripChars r], by simp [h1, h2]⟩

theorem foldl_dedupSave_ext (keyLen : ℕ) (l : List (List Char)) :
    ∀ db, ∃ ext, l.foldl (dedupSaveStep keyLen) db = db ++ ext := by
  induction l with
  | nil => exact fun db => ⟨[], by simp⟩
  | cons r rest ih =>
    intro db
    obtain ⟨e0, he0⟩ := dedupSaveStep_ext keyLen db r
    obtain ⟨e1, he1⟩ := ih (dedupSaveStep keyLen db r)
    exact ⟨e0 ++ e1, by rw [List.foldl_cons, he1, he0, List.append_assoc]⟩

theorem any_mono_append (db ext : List (List Char))
    (f : List Char → Bool) (h : db.any f = true) :
    (db ++ ext).any f = true := by
  simp [h]

theorem foldl_dedupSave_matched (keyLen : ℕ) (l : List (List Char)) :
    ∀ db (t : List Char), t ∈ l → (stripChars t).isEmpty = false →
      (l.foldl (dedupSaveStep keyLen) db).any
        (fun stored => postMatches keyLen (stripChars t) stored) = true := by
  induction l with
  | nil => intro db t ht; simp at ht
  | cons r rest ih =>
    intro db t ht hne
    rw [List.foldl_cons]
    rcases List.mem_cons.mp ht with rfl | ht2
    · have hstep : (dedupSaveStep keyLen db t).any
          (fun stored => postMatches keyLen (stripChars t) stored) = true := by
        rw [dedupSaveStep]
        simp only [hne, Bool.false_eq_true, if_false]
        by_cases h2 : db.any
            (fun stored => postMatches keyLen (stripChars t) stored) = true
        · simp [h2]
        · simp only [h2, Bool.false_eq_true, if_false]
          rw [List.any_append]
          simp [postMatches_self]
      obtain ⟨ext, hext⟩ := foldl_dedupSave_ext keyLen rest
        (dedupSaveStep keyLen db t)
      rw [hext]
      exact any_mono_append _ _ _ hstep
    · exact ih (dedupSaveStep keyLen db r) t ht2 hne

theorem foldl_dedupSave_noop (keyLen : ℕ) (l : List (List Char)) :
    ∀ db, (∀ t ∈ l, (stripChars t).isEmpty = true ∨
        db.any (fun stored => postMatches keyLen (stripChars t) stored) =
          true) →
      l.foldl (dedupSaveStep keyLen) db = db := by
  induction l with
  | nil => intro db _; rfl
  | cons r rest ih =>
    intro db hall
    have hstep : dedupSaveStep keyLen db r = db := by
      rw [dedupSaveStep]
      rcases hall r (List.mem_cons_self r rest) with h1 | h2
      · simp [h1]
      · by_cases h1 : (stripChars r).isEmpty = true
        · simp [h1]
        · simp [h1, h2]
    rw [List.foldl_cons, hstep]
    exact ih db (fun t ht => hall t (List.mem_cons_of_mem r ht))

theorem savePostsDedup_idempotent (keyLen limit : ℕ)
    (db texts : List (List Char)) :
    savePostsDedup keyLen limit (savePostsDedup keyLen limit db texts)
      texts = savePostsDedup keyLen limit db texts := by
  unfold savePostsDedup
  apply foldl_dedupSave_noop
  intro t ht
  by_cases hne : (stripChars t).isEmpty = true
  · exact Or.inl hne
  · exact Or.inr (foldl_dedupSave_matched keyLen (texts.take limit) db t ht
      (Bool.eq_false_iff.mpr hne))

/-! ## Ingestion idempotence — keyed `update_or_create` saves
(tiktok_scraper.py lines 275–289)

`scrape_tiktok_profile` saves each post with
`RawPost.objects.update_or_create(profile, platform,
post_id=f"{username}-{hash(post['content'])}", defaults=...)` — an upsert
keyed by `(username, hash(content))`.  Python's string `hash` is a
deterministic function within one process, modelled as an oracle `hash`.
The store slice for the `(profile, platform)` pair is an association list
keyed by the `post_id` components; `update_or_create` is `upsertAssoc`. -/

/-- The generic save loop: upsert every `(key, row)` item in order. -/
def foldUpsert {κ β : Type} [DecidableEq κ] (db : List (κ × β))
    (items : List (κ × β)) : List (κ × β) :=
  items.foldl (fun d i => upsertAssoc d i.1 i.2) db

theorem anyKey_iff {κ β : Type} [DecidableEq κ] (db : List (κ × β)) (k : κ) :
    (db.any fun e => decide (e.1 = k)) = true ↔ k ∈ db.map Prod.fst := by
  simp only [List.any_eq_true, decide_eq_true_eq, List.mem_map]

theorem keys_replaceFirstAssoc {κ β : Type} [DecidableEq κ]
    (db : List (κ × β)) (k : κ) (v : β) :
    (replaceFirstAssoc db k v).map Prod.fst = db.map Prod.fst := by
  induction db with
  | nil => rfl
  | cons e es ih =>
    by_cases he : e.1 = k
    · simp [replaceFirstAssoc, he]
    · simp [replaceFirstAssoc, he, ih]

theorem keys_upsertAssoc {κ β : Type} [DecidableEq κ] (db : List (κ × β))
    (k : κ) (v : β) :
    (upsertAssoc db k v).map Prod.fst =
      if k ∈ db.map Prod.fst then db.map Prod.fst
      else db.map Prod.fst ++ [k] := by
  by_cases h : (db.any fun e => decide (e.1 = k)) = true
  · rw [upsertAssoc, if_pos h, keys_replaceFirstAssoc,
      if_pos ((anyKey_iff db k).mp h)]
  · have hnm : k ∉ db.map Prod.fst := fun hc => h ((anyKey_iff db k).mpr hc)
    rw [upsertAssoc, if_neg h, if_neg hnm, List.map_append]
    rfl

theorem lookupAssoc_replaceFirst_ne {κ β : Type} [DecidableEq κ]
    (db : List (κ × β)) (k k2 : κ) (v : β) (hne : k2 ≠ k) :
    lookupAssoc (replaceFirstAssoc db k v) k2 = lookupAssoc db k2 := by
  induction db with
  | nil => rfl
  | cons e es ih =>
    by_cases he : e.1 = k
    · have h2 : (decide (k = k2)) = false := by
        simp only [decide_eq_false_iff_not]
        exact fun h => hne h.symm
      have h3 : (decide (e.1 = k2)) = false := by
        rw [he]
        exact h2
      simp only [replaceFirstAssoc, he, if_true, lookupAssoc, List.find?,
        h2, h3]
    · by_cases he2 : e.1 = k2
      · have h3 : (decide (e.1 = k2)) = true := by simp [he2]
        simp only [replaceFirstAssoc, he, Bool.false_eq_true, if_false,
          lookupAssoc, List.find?, h3]
      · have h3 : (decide (e.1 = k2)) = false := by simp [he2]
        simp only [replaceFirstAssoc, he, Bool.false_eq_true, if_false,
          lookupAssoc, List.find?, h3] at ih ⊢
        exact ih

theorem lookupAssoc_append_ne {κ β : Type} [DecidableEq κ]
    (db : List (κ × β)) (k k2 : κ) (v : β) (hne : k2 ≠ k) :
    lookupAssoc (db ++ [(k, v)]) k2 = lookupAssoc db k2 := by
  have h2 : (decide (k = k2)) = false := by
    simp only [decide_eq_false_iff_not]
    exact fun h => hne h.symm
  rw [lookupAssoc, List.find?_append, lookupAssoc]
  rw [show List.find? (fun e => decide (e.1 = k2)) [(k, v)] = none by
    simp [List.find?, h2]]
  rw [Option.or_none]

theorem lookupAssoc_upsertAssoc_ne {κ β : Type} [DecidableEq κ]
    (db : List (κ × β)) (k k2 : κ) (v : β) (hne : k2 ≠ k) :
    lookupAssoc (upsertAssoc db k v) k2 = lookupAssoc db k2 := by
  by_cases h : (db.any fun e => decide (e.1 = k)) = true
  · rw [upsertAssoc, if_pos h]
    exact lookupAssoc_replaceFirst_ne db k k2 v hne
  · rw [upsertAssoc, if_neg h]
    exact lookupAssoc_append_ne db k k2 v hne

theorem lookupAssoc_eq_none {κ β : Type} [DecidableEq κ]
    (db : List (κ × β)) (k : κ) (h : k ∉ db.map Prod.fst) :
    lookupAssoc db k = none := by
  rw [lookupAssoc, Option.map_eq_none', List.find?_eq_none]
  intro e he
  simp only [decide_eq_true_eq]
  intro hc
  exact h (List.mem_map.mpr ⟨e, he, hc⟩)

theorem assocExt {κ β : Type} [DecidableEq κ] :
    ∀ (db1 db2 : List (κ × β)),
      db1.map Prod.fst = db2.map Prod.fst →
      (db1.map Prod.fst).Nodup →
      (∀ k, lookupAssoc db1 k = lookupAssoc db2 k) →
      db1 = db2 := by
  intro db1
  induction db1 with
  | nil =>
    intro db2 hkeys _ _
    exact (List.map_eq_nil_iff.mp hkeys.symm).symm
  | cons e t1 ih =>
    intro db2 hkeys hnd hlook
    match db2 with
    | [] => exact absurd hkeys (by simp)
    | f :: t2 =>
      simp only [List.map_cons, List.cons.injEq] at hkeys
      obtain ⟨hk1, hkt⟩ := hkeys
      have hvl := hlook e.1
      have hle : lookupAssoc (e :: t1) e.1 = some e.2 := by
        simp [lookupAssoc, List.find?]
      have hlf : lookupAssoc (f :: t2) e.1 = some f.2 := by
        simp [lookupAssoc, List.find?, ← hk1]
      rw [hle, hlf, Option.some.injEq] at hvl
      have hef : e = f := by
        cases e
        cases f
        simp only at hk1 hvl
        simp [hk1, hvl]
      simp only [List.map_cons, List.nodup_cons] at hnd
      have htail : t1 = t2 := by
        apply ih t2 hkt hnd.2
        intro k
        by_cases hk : k = e.1
        · rw [hk, lookupAssoc_eq_none t1 e.1 hnd.1,
            lookupAssoc_eq_none t2 e.1 (hkt ▸ hnd.1)]
        · have hd1 : (decide (e.1 = k)) = false := by
            simp only [decide_eq_false_iff_not]
            exact fun h => hk h.symm
          have hd2 : (decide (f.1 = k)) = false := by
            rw [← hk1]
            exact hd1
          have h1 : lookupAssoc (e :: t1) k = lookupAssoc t1 k := by
            simp only [lookupAssoc, List.find?, hd1]
          have h2 : lookupAssoc (f :: t2) k = lookupAssoc t2 k := by
            simp only [lookupAssoc, List.find?, hd2]
          rw [← h1, ← h2]
          exact hlook k
      rw [hef, htail]

theorem keys_mem_upsertAssoc {κ β : Type} [DecidableEq κ]
    (db : List (κ × β)) (k k0 : κ) (v : β) (h : k0 ∈ db.map Prod.fst) :
    k0 ∈ (upsertAssoc db k v).map Prod.fst := by
  rw [keys_upsertAssoc]
  by_cases hm : k ∈ db.map Prod.fst
  · rw [if_pos hm]
    exact h
  · rw [if_neg hm]
    exact List.mem_append_left _ h

theorem key_mem_upsertAssoc_self {κ β : Type} [DecidableEq κ]
    (db : List (κ × β)) (k : κ) (v : β) :
    k ∈ (upsertAssoc db k v).map Prod.fst := by
  rw [keys_upsertAssoc]
  by_cases hm : k ∈ db.map Prod.fst
  · rw [if_pos hm]
    exact hm
  · rw [if_neg hm]
    exact List.mem_append_right _ (List.mem_singleton.mpr rfl)

theorem nodup_keys_upsertAssoc {κ β : Type} [DecidableEq κ]
    (db : List (κ × β)) (k : κ) (v : β)
    (h : (db.map Prod.fst).Nodup) :
    ((upsertAssoc db k v).map Prod.fst).Nodup := by
  rw [keys_upsertAssoc]
  by_cases hm : k ∈ db.map Prod.fst
  · rw [if_pos hm]
    exact h
  · rw [if_neg hm]
    rw [List.nodup_append]
    exact ⟨h, List.nodup_singleton k, by simpa using hm⟩

theorem keys_mem_foldUpsert {κ β : Type} [DecidableEq κ]
    (items : List (κ × β)) :
    ∀ (db : List (κ × β)) (k0 : κ), k0 ∈ db.map Prod.fst →
      k0 ∈ (foldUpsert db items).map Prod.fst := by
  induction items with
  | nil => intro db k0 h; exact h
  | cons i rest ih =>
    intro db k0 h
    exact ih (upsertAssoc db i.1 i.2) k0
      (keys_mem_upsertAssoc db i.1 k0 i.2 h)

theorem item_key_mem_foldUpsert {κ β : Type} [DecidableEq κ]
    (items : List (κ × β)) :
    ∀ (db : List (κ × β)) (i : κ × β), i ∈ items →
      i.1 ∈ (foldUpsert db items).map Prod.fst := by
  induction items with
  | nil => intro db i h; simp at h
  | cons j rest ih =>
    intro db i h
    rcases List.mem_cons.mp h with rfl | h2
    · exact keys_mem_foldUpsert rest (upsertAssoc db i.1 i.2) i.1
        (key_mem_upsertAssoc_self db i.1 i.2)
    · exact ih (upsertAssoc db j.1 j.2) i h2

theorem keys_foldUpsert_of_present {κ β : Type} [DecidableEq κ]
    (items : List (κ × β)) :
    ∀ (db : List (κ × β)), (∀ i ∈ items, i.1 ∈ db.map Prod.fst) →
      (foldUpsert db items).map Prod.fst = db.map Prod.fst := by
  induction items with
  | nil => intro db _; rfl
  | cons j rest ih =>
    intro db hall
    have hkj : (upsertAssoc db j.1 j.2).map Prod.fst = db.map Prod.fst := by
      rw [keys_upsertAssoc, if_pos (hall j (List.mem_cons_self j rest))]
    have hrest : ∀ i ∈ rest, i.1 ∈ (upsertAssoc db j.1 j.2).map Prod.fst := by
      intro i hi
      rw [hkj]
      exact hall i (List.mem_cons_of_mem j hi)
    show (foldUpsert (upsertAssoc db j.1 j.2) rest).map Prod.fst =
      db.map Prod.fst
    rw [ih (upsertAssoc db j.1 j.2) hrest, hkj]

theorem nodup_keys_foldUpsert {κ β : Type} [DecidableEq κ]
    (items : List (κ × β)) :
    ∀ (db : List (κ × β)), (db.map Prod.fst).Nodup →
      ((foldUpsert db items).map Prod.fst).Nodup := by
  induction items with
  | nil => intro db h; exact h
  | cons j rest ih =>
    intro db h
    exact ih (upsertAssoc db j.1 j.2) (nodup_keys_upsertAssoc db j.1 j.2 h)

theorem lookup_foldUpsert {κ β : Type} [DecidableEq κ]
    (items : List (κ × β)) :
    ∀ (db : List (κ × β)) (k : κ),
      lookupAssoc (foldUpsert db items) k =
        ((items.reverse.find? fun i => decide (i.1 = k)).map Prod.snd).or
          (lookupAssoc db k) := by
  induction items with
  | nil => intro db k; simp [foldUpsert]
  | cons j rest ih =>
    intro db k
    have hstep : lookupAssoc (foldUpsert db (j :: rest)) k =
        ((rest.reverse.find? fun i => decide (i.1 = k)).map Prod.snd).or
          (lookupAssoc (upsertAssoc db j.1 j.2) k) :=
      ih (upsertAssoc db j.1 j.2) k
    rw [hstep, List.reverse_cons, List.find?_append]
    cases hf : rest.reverse.find? fun i => decide (i.1 = k) with
    | some j0 => simp [Option.or]
    | none =>
      simp only [Option.map_none', Option.none_or]
      by_cases hk : j.1 = k
      · rw [show lookupAssoc (upsertAssoc db j.1 j.2) k = some j.2 by
          rw [← hk]
          exact lookupAssoc_upsertAssoc db j.1 j.2]
        simp [List.find?, hk]
      · rw [lookupAssoc_upsertAssoc_ne db j.1 k j.2 (fun h => hk h.symm)]
        have hfj : List.find? (fun i => decide (i.1 = k)) [j] = none := by
          simp [List.find?, hk]
        rw [hfj]
        simp

theorem foldUpsert_idempotent {κ β : Type} [DecidableEq κ]
    (db items : List (κ × β)) (h : (db.map Prod.fst).Nodup) :
    foldUpsert (foldUpsert db items) items = foldUpsert db items := by
  apply assocExt
  · exact keys_foldUpsert_of_present items (foldUpsert db items)
      (fun i hi => item_key_mem_foldUpsert items db i hi)
  · exact nodup_keys_foldUpsert items (foldUpsert db items)
      (nodup_keys_foldUpsert items db h)
  · intro k
    rw [lookup_foldUpsert items (foldUpsert db items) k,
      lookup_foldUpsert items db k, ← Option.or_assoc, Option.or_self]

/-- The `RawPost` fields written by the TikTok post save (the
`update_or_create` defaults). -/
structure TtPost where
  content : List Char
  likes : ℤ
  comments : ℤ
  timestamp : ℤ
  sentiment : ℚ
  deriving DecidableEq

/-- Shallow embedding of the post-save loop of `scrape_tiktok_profile`:
`update_or_create` keyed by `post_id = f"{username}-{hash(content)}"`,
with the post's fields as defaults.  `hash` is Python's (per-process
deterministic) string hash, modelled as an oracle. -/
def scrape_tiktok_profile_save (hash : List Char → ℤ) (username : List Char)
    (db : List ((List Char × ℤ) × TtPost)) (posts : List TtPost) :
    List ((List Char × ℤ) × TtPost) :=
  posts.foldl (fun d p => upsertAssoc d (username, hash p.content) p) db

theorem scrape_tiktok_profile_save_eq_foldUpsert (hash : List Char → ℤ)
    (username : List Char) (db : List ((List Char × ℤ) × TtPost))
    (posts : List TtPost) :
    scrape_tiktok_profile_save hash username db posts =
      foldUpsert db (posts.map fun p => ((username, hash p.content), p)) := by
  rw [scrape_tiktok_profile_save, foldUpsert, List.foldl_map]

/-- C4: re-ingesting an identical raw fetch result leaves the stored post
rows unchanged for all three cited save loops — the Twitter and Instagram
prefix-deduplicated saves and the TikTok keyed `update_or_create` save
(given unique stored keys, which `update_or_create` maintains).  Since
`posts_count` / `posts_collected` are recomputed as the stored row count,
they do not increase either (row-count conjuncts). -/
theorem c4_ingestion_idempotent :
    (∀ db texts : List (List Char),
      scrape_twitter_profile_save (scrape_twitter_profile_save db texts)
        texts = scrape_twitter_profile_save db texts) ∧
    (∀ db texts : List (List Char),
      (scrape_twitter_profile_save (scrape_twitter_profile_save db texts)
        texts).length = (scrape_twitter_profile_save db texts).length) ∧
    (∀ db texts : List (List Char),
      scrape_instagram_profile_save (scrape_instagram_profile_save db texts)
        texts = scrape_instagram_profile_save db texts) ∧
    (∀ db texts : List (List Char),
      (scrape_instagram_profile_save (scrape_instagram_profile_save db texts)
        texts).length = (scrape_instagram_profile_save db texts).length) ∧
    (∀ (hash : List Char → ℤ) (username : List Char)
      (db : List ((List Char × ℤ) × TtPost)) (posts : List TtPost),
      (db.map Prod.fst).Nodup →
        scrape_tiktok_profile_save hash username
          (scrape_tiktok_profile_save hash username db posts) posts =
          scrape_tiktok_profile_save hash username db posts) := by
  refine ⟨fun db texts => savePostsDedup_idempotent 50 20 db texts,
    fun db texts => ?_,
    fun db texts => savePostsDedup_idempotent 60 50 db texts,
    fun db texts => ?_,
    fun hash username db posts hnd => ?_⟩
  · exact congrArg List.length (savePostsDedup_idempotent 50 20 db texts)
  · exact congrArg List.length (savePostsDedup_idempotent 60 50 db texts)
  · simp only [scrape_tiktok_profile_save_eq_foldUpsert]
    exact foldUpsert_idempotent db
      (posts.map fun p => ((username, hash p.content), p)) hnd

/-- C4 witness: the TikTok clause applied to an empty store and one concrete
post, discharging the key-uniqueness hypothesis by computation. -/
theorem c4_ingestion_idempotent_witness :
    scrape_tiktok_profile_save (fun _ => 7) ("u".toList)
      (scrape_tiktok_profile_save (fun _ => 7) ("u".toList) []
        [⟨"hi".toList, 1, 2, 3, 0⟩])
      [⟨"hi".toList, 1, 2, 3, 0⟩] =
      scrape_tiktok_profile_save (fun _ => 7) ("u".toList) []
        [⟨"hi".toList, 1, 2, 3, 0⟩] :=
  c4_ingestion_idempotent.2.2.2.2 (fun _ => 7) ("u".toList) []
    [⟨"hi".toList, 1, 2, 3, 0⟩] (by decide)
